import Mathlib

/-!
Verification of the Apriori MapReduce mining system
(`Level3-Question13`: `candidate_generator.py`, `itemset_support_counter.py`,
`decimal_support_converter.py`, `apriori_core.py`, `main.py`).

Modelling conventions (shallow embedding):

* An item is a `String` (the source treats items as opaque strings).
* Wire forms: the Python jobs pack itemsets into strings joined by `" "`
  (or `","` internally) and tuples into `"a:b"` strings.  In the candidate
  generator we model every such itemset string by its token list
  (`List String`), and every `"candidate:support"` value by the pair
  `(candidate tokens, support)`.  This is faithful whenever items contain
  no `' '` and no `':'` characters: items never contain spaces (they arise
  from space-splitting), and an item containing `':'` would make
  `pair.split(":")` return more than two fields and crash the Python job
  with an uncaught `ValueError` (so no output is produced at all on such
  inputs).  Theorems about the generator carry these alphabet hypotheses.
  In the support counter the internal comma-joined key is kept as a real
  `String`, because its ambiguity for comma-carrying items is observable.
* Python `sorted` on strings is `List.insertionSort (· ≤ ·)` (both are the
  lexicographic order on unicode code points).
* A Python `frozenset` built from a token list is modelled by `List.dedup`
  of the list; every consumer in the source either sorts it, takes its
  length, or tests membership, so only the underlying set matters.
* `itertools.combinations(xs, 2)` on a sorted list is `pairsComb`, which
  yields the pairs `(xs[i], xs[j])`, `i < j`, in the same order.
  `itertools.combinations(s, len(s)-1)` on an `n`-element set yields every
  `(n-1)`-subset exactly once; we enumerate them as `eraseIdx j` of the
  deduplicated token list (each subset string is re-sorted by the source
  before use, so the enumeration order is irrelevant).  Crucially, the
  source binds this generator ONCE (line 160) outside the postfix-pair
  loop, so it is exhausted after the first pair; `consumeProbes` threads
  the remaining-iterator state explicitly to model this.
* One MapReduce shuffle+reduce round is `runReduce`: all values of a key
  are delivered to exactly one reducer call; the outputs of all calls are
  concatenated.
-/

/-- Lexicographic comparison of character lists by code point; this is
exactly Python's `<=` on strings. -/
def leChars : List Char → List Char → Bool
  | [], _ => true
  | _ :: _, [] => false
  | a :: as, b :: bs =>
    if a < b then true else if b < a then false else leChars as bs

/-- Python `<=` on strings (lexicographic by unicode code point). -/
def pyLe (a b : String) : Bool := leChars a.data b.data

/-- Python `<` on strings. -/
def pyLt (a b : String) : Bool := pyLe a b && !(pyLe b a)

/-- Python `sorted` on a list of strings: lexicographic, stable. -/
def pySorted (l : List String) : List String :=
  l.insertionSort (fun a b => pyLe a b = true)

/-- All 2-combinations of a list in `itertools.combinations` order:
`(l[i], l[j])` for `i < j`. -/
def pairsComb {α : Type} : List α → List (α × α)
  | [] => []
  | x :: xs => xs.map (fun y => (x, y)) ++ pairsComb xs

/-- The values delivered to the reducer of key `k`: every value emitted
under that key, in emission order. -/
def groupVals {κ υ : Type} [DecidableEq κ] (pairs : List (κ × υ)) (k : κ) :
    List υ :=
  (pairs.filter (fun p => p.1 = k)).map Prod.snd

/-- One shuffle + reduce round of the MapReduce primitive: each distinct
key is handed to one reducer call together with all its values, and the
reducer outputs are concatenated. -/
def runReduce {κ υ κ' υ' : Type} [DecidableEq κ]
    (pairs : List (κ × υ)) (red : κ → List υ → List (κ' × υ')) :
    List (κ' × υ') :=
  ((pairs.map Prod.fst).dedup).flatMap (fun k => red k (groupVals pairs k))

namespace CandidateGenerator

/-- Sentinel for a subset missing from the frequent itemsets
(`UNEXISTED_SUPPORT = -1` in the source). -/
def UNEXISTED_SUPPORT : ℤ := -1

/-- `CandidateGenerator.prefix_mapper` (candidate_generator.py:82-108) after
line parsing: sort the itemset tokens (`reorder_items`), split off the last
item (`split_ordered_itemset` with postfix size 1), emit
`(prefix tokens, (last item, support))`.  A record whose itemset field is
empty cannot reach this point (the line parser drops empty fields). -/
def prefix_mapper (tokens : List String) (support : ℕ) :
    List (List String × (String × ℕ)) :=
  let ordered := pySorted tokens
  match ordered.getLast? with
  | none => []
  | some q => [(ordered.dropLast, (q, support))]

/-- The probe-emitting loop of stage 1 for prefixes of at least two
distinct items (candidate_generator.py:160-176).  `iter` is the state of
the `sub_prefix_combinations` generator: the source creates it once,
before the loop over postfix pairs, so the first pair consumes it entirely
and every later pair iterates an exhausted generator (no probes). -/
def consumeProbes (pfx : List String) (iter : List (List String)) :
    List (String × String) → List (List String × (List String × ℤ))
  | [] => []
  | (q1, q2) :: rest =>
      iter.map (fun sp =>
        (sp ++ [q1, q2], (pfx ++ [q1, q2], UNEXISTED_SUPPORT)))
        ++ consumeProbes pfx [] rest

/-- `CandidateGenerator.checking_subsets_generating_reducer`
(candidate_generator.py:110-176).  For each `(postfix, support)` pair a
self-probe `(P ++ [q], ([], support))` is emitted; then, writing `Q` for
the sorted distinct postfixes, candidates `P ++ [q1, q2]` are probed:
with a one-item prefix each pair gets the single probe key `[q1, q2]`;
otherwise the probe keys `sorted(P minus one item) ++ [q1, q2]` are drawn
from the once-allocated generator modelled by `consumeProbes`. -/
def checking_subsets_generating_reducer (pfx : List String)
    (pairs : List (String × ℕ)) : List (List String × (List String × ℤ)) :=
  let selfProbes : List (List String × (List String × ℤ)) :=
    pairs.map (fun pq => (pfx ++ [pq.1], (([] : List String), (pq.2 : ℤ))))
  let postItems := pySorted (pairs.map Prod.fst).dedup
  let pfxItems := pfx.dedup
  if pfxItems.length = 0 ∨ postItems.length < 2 then selfProbes
  else if pfxItems.length = 1 then
    selfProbes ++ (pairsComb postItems).map (fun pq =>
      ([pq.1, pq.2], (pfx ++ [pq.1, pq.2], UNEXISTED_SUPPORT)))
  else
    selfProbes ++ consumeProbes pfx
      ((List.range pfxItems.length).map (fun j => pySorted (pfxItems.eraseIdx j)))
      (pairsComb postItems)

/-- `CandidateGenerator.subset_validating_reducer`
(candidate_generator.py:191-222): scan the group once, remembering the
last support different from `-1` (only self-probes carry one) and
collecting every non-empty candidate; then emit each collected candidate
with the remembered support. -/
def subset_validating_reducer (values : List (List String × ℤ)) :
    List (List String × ℤ) :=
  let s := values.foldl
    (fun acc v => if v.2 ≠ UNEXISTED_SUPPORT then v.2 else acc)
    UNEXISTED_SUPPORT
  (values.filter (fun v => v.1 ≠ [])).map (fun v => (v.1, s))

/-- `CandidateGenerator.candidate_pruning_reducer`
(candidate_generator.py:224-243): a candidate survives iff its group is
non-empty and contains no `-1`. -/
def candidate_pruning_reducer (candidate : List String)
    (supports : List ℤ) : List (List String) :=
  if supports.length = 0 ∨ supports.any (fun s => s = UNEXISTED_SUPPORT)
  then [] else [candidate]

end CandidateGenerator

namespace CandidateGenerator

/-- Stage 1 of the pipeline on parsed input records `(tokens, support)`:
map with `prefix_mapper`, shuffle, reduce with
`checking_subsets_generating_reducer`. -/
def stage1 (records : List (List String × ℕ)) :
    List (List String × (List String × ℤ)) :=
  runReduce (records.flatMap (fun r => prefix_mapper r.1 r.2))
    (fun k vs => checking_subsets_generating_reducer k vs)

end CandidateGenerator

/-- Claim C1 failing input, stage-1 reduce group: `F_3` records
`"a b c\t2"`, `"a b d\t2"`, `"a b e\t2"` all share the mapper key
(prefix) `["a", "b"]` with postfix/support pairs
`[("c",2), ("d",2), ("e",2)]`. -/
def c1Group : List (List String × (List String × ℤ)) :=
  CandidateGenerator.checking_subsets_generating_reducer ["a", "b"]
    [("c", 2), ("d", 2), ("e", 2)]

/-!
Python string primitives used by the jobs, re-implemented over `.data`
so that every definition evaluates by kernel reduction.  `pyStrip` models
`str.strip()` (on the ASCII whitespace the inputs can contain), `pySplit`
models `str.split(sep)` for a one-character separator (no collapsing of
empty fields, `"".split(sep) == [""]`), `pyJoin` models `sep.join`,
`pyIsDigit` models `str.isdigit()` on ASCII digits and `pyToNat` the
subsequent `int(...)`.
-/

/-- Whitespace as recognised by both `str.strip()` and `Char.isWhitespace`
for the inputs at hand. -/
def isWs (c : Char) : Bool := c.isWhitespace

/-- Python `str.strip()`. -/
def pyStrip (s : String) : String :=
  ⟨((s.data.dropWhile isWs).reverse.dropWhile isWs).reverse⟩

/-- Split a character list at every occurrence of `sep` (no collapsing). -/
def splitChars (sep : Char) (l : List Char) : List (List Char) :=
  l.foldr
    (fun c acc =>
      match acc with
      | cur :: rest => if c = sep then [] :: cur :: rest else (c :: cur) :: rest
      | [] => [[c]])
    [[]]

/-- Python `s.split(sep)` for a one-character separator. -/
def pySplit (s : String) (sep : Char) : List String :=
  (splitChars sep s.data).map (fun cs => ⟨cs⟩)

/-- Join character lists with a single-character separator. -/
def joinSep (sep : Char) : List (List Char) → List Char
  | [] => []
  | [p] => p
  | p :: ps => p ++ sep :: joinSep sep ps

/-- Python `sep.join(parts)` for a one-character separator (every
separator in the source — space, comma, tab — is one character). -/
def pyJoin (sep : Char) (parts : List String) : String :=
  ⟨joinSep sep (parts.map String.data)⟩

/-- Python `s.isdigit()` (ASCII digits). -/
def pyIsDigit (s : String) : Bool := !s.data.isEmpty && s.data.all Char.isDigit

/-- Python `int(s)` for a digit string. -/
def pyToNat (s : String) : ℕ :=
  s.data.foldl (fun n c => 10 * n + (c.toNat - '0'.toNat)) 0

namespace ItemsetSupportCounter

/-- `string_to_itemset` (itemset_support_counter.py:228-240): strip the
string, split on the separator, strip each token, drop empties, and take
the resulting `frozenset`.  A `frozenset` is modelled by its canonical
sorted duplicate-free list; every consumer of the result in the source
either sorts it, tests membership/subset, or tests emptiness, so only the
underlying set is observable. -/
def string_to_itemset (s : String) (sep : Char) : List String :=
  pySorted (((pySplit (pyStrip s) sep).map pyStrip).filter (fun x => x ≠ "")).dedup

/-- `itemset_to_string` (itemset_support_counter.py:215-226):
`separator.join(sorted(itemset))`. -/
def itemset_to_string (itemset : List String) (sep : Char) : String :=
  pyJoin sep (pySorted itemset)

/-- Python `items.issuperset(itemset)` on set representatives. -/
def issuperset (sup sub : List String) : Bool := sub.all (fun x => x ∈ sup)

/-- `change_itemset_separator` (itemset_support_counter.py:242-259): split
on the old separator, strip the pieces, drop empties, join with the new
separator (no sorting). -/
def change_itemset_separator (s : String) (oldSep : Char) (newSep : Char) :
    String :=
  pyJoin newSep (((pySplit s oldSep).map pyStrip).filter (fun x => x ≠ ""))

/-- `load_itemsets_from_file` (itemset_support_counter.py:261-284).  The
file contents are given as `Except err lines`; `FileNotFoundError` and
`IOError` are swallowed by the source (`except: pass`), producing the
empty candidate list. -/
def load_itemsets_from_file (file : Except String (List String)) :
    List (List String) :=
  match file with
  | .error _ => []
  | .ok lines =>
      lines.filterMap (fun line =>
        let l := pyStrip line
        if l = "" then none
        else
          let itemset := string_to_itemset l ' '
          if itemset = [] then none else some itemset)

/-- `mapper_init` / `reducer_init` (itemset_support_counter.py:100-116,
172-188): candidate mode is on iff at least one `--itemset-files` argument
was given, and the interesting itemsets are the concatenation of the
per-file loads. -/
def taskInit (itemsetFiles : List (Except String (List String))) :
    Bool × List (List String) :=
  (!itemsetFiles.isEmpty, itemsetFiles.flatMap load_itemsets_from_file)

/-- Parse one transaction line as the mapper does
(itemset_support_counter.py:133-140): strip, split on tab, require exactly
two fields, and parse the itemset field into a set. -/
def parsedItems (line : String) : Option (List String) :=
  match pySplit (pyStrip line) '\t' with
  | [_, itemsetStr] => some (string_to_itemset itemsetStr ' ')
  | _ => none

/-- `ItemsetSupportCounter.mapper` (itemset_support_counter.py:118-154).
In candidate mode each interesting itemset gets one record per
transaction, keyed by its comma-joined canonical string, with count 1 or
0; in singleton mode each distinct item of the transaction gets `(item, 1)`. -/
def mapper (interested : List (List String)) (scanning : Bool)
    (line : String) : List (String × ℕ) :=
  match parsedItems line with
  | none => []
  | some items =>
      if scanning then
        interested.map (fun s =>
          (itemset_to_string s ',', if issuperset items s then 1 else 0))
      else
        items.map (fun i => (i, 1))

/-- `ItemsetSupportCounter.reducer` (itemset_support_counter.py:190-213):
sum the counts; in candidate mode convert the comma key back to a
space-separated itemset; emit only if the total reaches the minimum
support. -/
def reducer (scanning : Bool) (minSup : ℤ) (key : String) (values : List ℕ) :
    List (String × ℕ) :=
  let total := values.sum
  if scanning then
    if (total : ℤ) ≥ minSup then
      [(change_itemset_separator key ',' ' ', total)]
    else []
  else
    if (total : ℤ) ≥ minSup then [(key, total)] else []

/-- The whole support-counting job on the given transaction lines.
`minSupArg` is the raw `--min-sup` integer; `self.options.min_support or
DEFAULT_MIN_SUPPORT` replaces a zero by the default 1
(itemset_support_counter.py:107,179).  The combiner
(itemset_support_counter.py:156-170) only pre-sums values of a key inside
one map task and is lossless for the per-key total, so the job is the
composition map -> shuffle -> reduce. -/
def job (transactionLines : List String)
    (itemsetFiles : List (Except String (List String))) (minSupArg : ℤ) :
    List (String × ℕ) :=
  let init := taskInit itemsetFiles
  let minSup := if minSupArg = 0 then 1 else minSupArg
  runReduce (transactionLines.flatMap (mapper init.2 init.1))
    (fun k vs => reducer init.1 minSup k vs)

/-- The true support of an itemset `S` in the transaction lines: the
number of parseable lines whose item set contains `S` (the claim's
`sigma(S)`). -/
def sigma (S : List String) (transactionLines : List String) : ℕ :=
  (transactionLines.filterMap parsedItems).countP
    (fun items => issuperset items S)

end ItemsetSupportCounter

namespace DecimalSupportConverter

/-- `DecimalSupportConverter.mapper` (decimal_support_converter.py:84-106):
emit one count under the constant key for every line that splits on tab
into exactly two fields. -/
def mapper (line : String) : List (String × ℕ) :=
  match pySplit (pyStrip line) '\t' with
  | [_, _] => [("total_transactions", 1)]
  | _ => []

/-- `reducer_init` (decimal_support_converter.py:124-133):
`self.options.min_support_decimal or DEFAULT_MIN_SUPPORT_DECIMAL` — a zero
decimal support is falsy in Python and is silently replaced by the default
0.5.  The IEEE-754 `float` is modelled as the exact rational it denotes;
the `or` happens for the exact value 0.0 only. -/
def reducer_init (minSupportDecimal : ℚ) : ℚ :=
  if minSupportDecimal = 0 then 1 / 2 else minSupportDecimal

/-- `DecimalSupportConverter.reducer` (decimal_support_converter.py:135-152):
sum the counts and emit `math.floor(p * total)`. -/
def reducer (p : ℚ) (values : List ℕ) : List ℤ :=
  [⌊p * (values.sum : ℚ)⌋]

/-- The whole converter job.  If no line is well-formed the mapper emits
nothing, no reduce group exists, and the job output is empty (no record at
all).  The combiner pre-sums counts and is lossless. -/
def converterJob (lines : List String) (minSupportDecimal : ℚ) : List ℤ :=
  (runReduce (lines.flatMap mapper)
    (fun _ vs => (reducer (reducer_init minSupportDecimal) vs).map
      (fun z => ((), z)))).map Prod.snd

end DecimalSupportConverter

namespace CandidateGenerator

/-- Stage 2 (identity map, shuffle by subset key, `subset_validating_reducer`;
the reducer ignores its key except for grouping, as the source's
`_candidate_subset` underscore parameter indicates). -/
def stage2 (records : List (List String × ℕ)) : List (List String × ℤ) :=
  runReduce (stage1 records) (fun _ vs => subset_validating_reducer vs)

/-- The full three-stage candidate-generation pipeline
(candidate_generator.py:59-80) on parsed input records, producing the
emitted candidate itemsets (the output protocol drops the null key). -/
def pipeline (records : List (List String × ℕ)) : List (List String) :=
  (runReduce (stage2 records)
    (fun c vs => (candidate_pruning_reducer c vs).map (fun cand => ((), cand)))).map
    Prod.snd

end CandidateGenerator

namespace AprioriCore

/-- Python `name.startswith(c)` for a one-character pattern. -/
def startsWithChar (s : String) (c : Char) : Bool := s.data.head? = some c

/-- `extract_itemsets_and_supports` (apriori_core.py:402-427): per line,
strip; skip empty; split on tab; require exactly two fields; parse the
support as `int(s)` when `s.isdigit()` and as `0` otherwise. -/
def extract_itemsets_and_supports (lines : List String) :
    List (String × ℕ) :=
  lines.filterMap (fun line =>
    let l := pyStrip line
    if l = "" then none
    else
      match pySplit l '\t' with
      | [itemsetStr, supportStr] =>
          some (itemsetStr, if pyIsDigit supportStr then pyToNat supportStr else 0)
      | _ => none)

/-- Association-list model of the Python dict `frequent_one_itemsets`:
lookup. -/
def dictGet (d : List (String × ℕ)) (k : String) : Option ℕ :=
  (d.find? (fun e => e.1 = k)).map Prod.snd

/-- Association-list model of the Python dict: set (overwrite in place or
append). -/
def dictSet (d : List (String × ℕ)) (k : String) (v : ℕ) :
    List (String × ℕ) :=
  if (d.find? (fun e => e.1 = k)).isSome
  then d.map (fun e => if e.1 = k then (k, v) else e)
  else d ++ [(k, v)]

/-- The record loop of `generate_candidate_2_itemsets`
(apriori_core.py:230-236): for each `(item, support)` record in file
order, raise `ValueError` iff `frequent_one_itemsets.get(item)` is truthy
(present AND non-zero) and differs from the new support; otherwise store
the new support. -/
def buildSupportDict (d : List (String × ℕ)) :
    List (String × ℕ) → Except String (List (String × ℕ))
  | [] => .ok d
  | (item, support) :: rest =>
      match dictGet d item with
      | some prev =>
          if prev ≠ 0 ∧ prev ≠ support then
            .error ("Item has inconsistent support values")
          else buildSupportDict (dictSet d item support) rest
      | none => buildSupportDict (dictSet d item support) rest

/-- `generate_candidate_2_itemsets` (apriori_core.py:194-255) with the
input files given as lists of lines: extract the records of every file,
build the support dict (aborting on a detected conflict), sort the
distinct items, and write one line `"item1 item2"` per 2-combination,
returning the written lines and their count. -/
def generate_candidate_2_itemsets (files : List (List String)) :
    Except String (List String × ℕ) :=
  (buildSupportDict [] (files.flatMap extract_itemsets_and_supports)).map
    (fun dict =>
      let sortedItems := pySorted (dict.map Prod.fst)
      let pairs := pairsComb sortedItems
      (pairs.map (fun p => p.1 ++ " " ++ p.2), pairs.length))

/-- `combine_parts` (apriori_core.py:346-400) with the directory listing
given as `(filename, lines)` snapshots: keep the files whose name starts
with neither `.` nor `_`, process them in sorted-by-filename order, and
write every stripped non-empty line; return the written lines and their
count.  (The output file itself is opened for truncating write before any
part is read, so on a re-run its stale copy contributes no lines.) -/
def combine_parts (files : List (String × List String)) :
    List String × ℕ :=
  let parts := files.filter (fun f =>
    !(startsWithChar f.1 '.') && !(startsWithChar f.1 '_'))
  let sortedParts := parts.insertionSort (fun a b => pyLe a.1 b.1 = true)
  let outLines := sortedParts.flatMap (fun f =>
    (f.2.map pyStrip).filter (fun l => l ≠ ""))
  (outLines, outLines.length)

/-- The per-level frequent-itemsets file name
`frequent_itemsets_<k>.txt` (apriori_core.py:36-39, main.py:229-234). -/
def fiFileName (level : ℕ) : String :=
  "frequent_itemsets_" ++ toString level ++ ".txt"

end AprioriCore

namespace MainDriver

/-- The validation prologue of `find_frequent_itemsets`
(apriori_core.py:139-144), executed before any directory or job I/O. -/
def find_frequent_itemsets_validation (numInputPaths : ℕ) (level : ℤ)
    (minSupportCount : ℤ) : Except String Unit :=
  if numInputPaths = 0 then .error "At least one input path must be provided."
  else if level < 1 then .error "Level must be at least 1"
  else if minSupportCount < 1 then .error "Minimum support count must be at least 1."
  else .ok ()

/-- Environment abstracting the outcomes that depend on file contents and
the MapReduce runtime: whether each job run succeeds and whether the
per-level artifacts come out empty. -/
structure DriverEnv where
  countJobOk : ℕ → Bool
  fkEmpty : ℕ → Bool
  gen2Ok : Bool
  genOk : ℕ → Bool
  ckEmpty : ℕ → Bool

/-- `execute_frequent_itemsets_finding` (main.py:75-121): run the
validation, then the job; every exception class is caught and turned into
`False` (`ValueError` at main.py:110-113; `RuntimeError`/`OSError` at
main.py:114-117; anything else at main.py:118-121). -/
def execute_frequent_itemsets_finding (numPaths : ℕ) (level : ℤ)
    (minSup : ℤ) (jobOk : Bool) : Bool :=
  match find_frequent_itemsets_validation numPaths level minSup with
  | .error _ => false
  | .ok _ => jobOk

/-- The body of `frequent_itemsets_mining` (main.py:459-486): the while
loop over iterations, with fuel `maxIterations - current_iteration`.
Returns whether `_step_finalize_results` is reached (early `return`
skips it, `break` and loop exhaustion reach it) and the list of levels
whose support-counting MR job was actually started
(`runner.run()` is reached only after the validation passed). -/
def miningLoop (env : DriverEnv) (numPaths : ℕ) (minSup : ℤ) :
    ℕ → ℕ → Bool × List ℕ
  | 0, _ => (true, [])
  | fuel + 1, level =>
      if execute_frequent_itemsets_finding numPaths (level : ℤ) minSup
          (env.countJobOk level) then
        if env.fkEmpty level then (true, [level])
        else if level = 1 then
          if env.gen2Ok then
            if env.ckEmpty 2 then (true, [level])
            else
              let r := miningLoop env numPaths minSup fuel 2
              (r.1, level :: r.2)
          else (false, [level])
        else
          if env.genOk (level + 1) then
            if env.ckEmpty (level + 1) then (true, [level])
            else
              let r := miningLoop env numPaths minSup fuel (level + 1)
              (r.1, level :: r.2)
          else (false, [level])
      else
        (false, if (find_frequent_itemsets_validation numPaths (level : ℤ)
            minSup).isOk then [level] else [])

/-- `frequent_itemsets_mining` (main.py:203-486) reduced to its control
flow: loop from level 1. -/
def frequent_itemsets_mining (env : DriverEnv) (numPaths : ℕ)
    (minSup : ℤ) (maxIterations : ℕ) : Bool × List ℕ :=
  miningLoop env numPaths minSup maxIterations 1

/-- `main` (main.py:713-822): argparse exits with code 2 on a missing
input file or unparseable flag; otherwise
`frequent_itemsets_mining(min_support_count=args.min_support or 4,
max_iterations=args.max_iterations or 100, ...)` is called
(main.py:814-822) — a zero flag value is falsy and silently replaced by
its default — and `main` returns `None`, so the process exits with
code 0 whatever the mining run did. -/
def main_exit_code (env : DriverEnv) (inputFilesExist : Bool)
    (numPaths : ℕ) (minSupArg : ℤ) (maxIterArg : ℤ) : ℕ :=
  if numPaths = 0 ∨ ¬ inputFilesExist then 2
  else
    let minSup := if minSupArg = 0 then 4 else minSupArg
    let maxIter := if maxIterArg = 0 then 100 else maxIterArg
    let _ := frequent_itemsets_mining env numPaths minSup maxIter.toNat
    0

end MainDriver

/-- A concrete driver environment (all jobs succeed, level 1 comes out
non-empty, no level-2 candidates), for closed evaluations of the driver
model. -/
def allOkEnv : MainDriver.DriverEnv :=
  ⟨fun _ => true, fun _ => false, true, fun _ => true, fun _ => true⟩

/-!
Basic order theory for the Python string comparison, so that Mathlib's
`insertionSort` lemmas apply to `pySorted`.
-/

theorem leChars_total : ∀ a b : List Char, leChars a b = true ∨ leChars b a = true
  | [], _ => by left; rfl
  | a :: as, [] => by right; rfl
  | a :: as, b :: bs => by
      rcases lt_trichotomy a b with h | h | h
      · left; simp [leChars, h]
      · subst h
        rcases leChars_total as bs with ih | ih
        · left; simp [leChars, lt_irrefl, ih]
        · right; simp [leChars, lt_irrefl, ih]
      · right; simp [leChars, h]

theorem leChars_trans : ∀ a b c : List Char,
    leChars a b = true → leChars b c = true → leChars a c = true
  | [], _, _ => by intro _ _; rfl
  | a :: as, [], _ => by intro h; exact absurd h (by simp [leChars])
  | a :: as, b :: bs, [] => by
      intro _ h; exact absurd h (by simp [leChars])
  | a :: as, b :: bs, c :: cs => by
      intro h1 h2
      rcases lt_trichotomy a b with hab | hab | hab
      · rcases lt_trichotomy b c with hbc | hbc | hbc
        · simp [leChars, hab.trans hbc]
        · subst hbc; simp [leChars, hab]
        · exact absurd h2 (by simp [leChars, hbc, not_lt_of_gt hbc])
      · subst hab
        rcases lt_trichotomy a c with hac | hac | hac
        · simp [leChars, hac]
        · subst hac
          simp only [leChars, lt_irrefl, if_false] at h1 h2 ⊢
          exact leChars_trans as bs cs h1 h2
        · exact absurd h2 (by simp [leChars, hac, not_lt_of_gt hac])
      · exact absurd h1 (by simp [leChars, hab, not_lt_of_gt hab])

theorem leChars_antisymm : ∀ a b : List Char,
    leChars a b = true → leChars b a = true → a = b
  | [], [] => by intro _ _; rfl
  | [], _ :: _ => by intro _ h; exact absurd h (by simp [leChars])
  | _ :: _, [] => by intro h _; exact absurd h (by simp [leChars])
  | a :: as, b :: bs => by
      intro h1 h2
      rcases lt_trichotomy a b with hab | hab | hab
      · exact absurd h2 (by simp [leChars, hab, not_lt_of_gt hab])
      · subst hab
        simp only [leChars, lt_irrefl, if_neg (lt_irrefl a)] at h1 h2
        exact congrArg (a :: ·) (leChars_antisymm as bs h1 h2)
      · exact absurd h1 (by simp [leChars, hab, not_lt_of_gt hab])

theorem leChars_refl : ∀ a : List Char, leChars a a = true
  | [] => rfl
  | a :: as => by simp [leChars, lt_irrefl, leChars_refl as]

theorem pyLe_refl (a : String) : pyLe a a = true := leChars_refl a.data

theorem pyLe_total (a b : String) : pyLe a b = true ∨ pyLe b a = true :=
  leChars_total a.data b.data

theorem pyLe_trans {a b c : String} (h1 : pyLe a b = true)
    (h2 : pyLe b c = true) : pyLe a c = true :=
  leChars_trans a.data b.data c.data h1 h2

theorem pyLe_antisymm {a b : String} (h1 : pyLe a b = true)
    (h2 : pyLe b a = true) : a = b := by
  cases a with
  | mk da =>
    cases b with
    | mk db => exact congrArg String.mk (leChars_antisymm da db h1 h2)

instance : IsTotal String (fun a b => pyLe a b = true) := ⟨pyLe_total⟩

instance : IsTrans String (fun a b => pyLe a b = true) :=
  ⟨fun _ _ _ => pyLe_trans⟩

instance : IsAntisymm String (fun a b => pyLe a b = true) :=
  ⟨fun _ _ => pyLe_antisymm⟩

theorem pyLt_iff {a b : String} : pyLt a b = true ↔ pyLe a b = true ∧ a ≠ b := by
  constructor
  · intro h
    have h1 : pyLe a b = true ∧ ¬ pyLe b a = true := by
      simpa [pyLt, Bool.and_eq_true] using h
    refine ⟨h1.1, fun hab => h1.2 ?_⟩
    subst hab; exact pyLe_refl a
  · rintro ⟨h1, h2⟩
    have : ¬ pyLe b a = true := fun hba => h2 (pyLe_antisymm h1 hba)
    simp [pyLt, h1, this]

theorem pyLt_trans {a b c : String} (h1 : pyLt a b = true)
    (h2 : pyLt b c = true) : pyLt a c = true := by
  rcases pyLt_iff.mp h1 with ⟨hab, hne1⟩
  rcases pyLt_iff.mp h2 with ⟨hbc, hne2⟩
  refine pyLt_iff.mpr ⟨pyLe_trans hab hbc, fun hac => ?_⟩
  subst hac
  exact hne1 (pyLe_antisymm hab hbc)

theorem pyLt_irrefl (a : String) : ¬ pyLt a a = true := by
  intro h; exact (pyLt_iff.mp h).2 rfl

/-- Strictly increasing token lists (the canonical on-disk itemset form)
are sorted for the weak order. -/
theorem chain'_pyLt_sorted {l : List String}
    (h : List.Chain' (fun a b => pyLt a b = true) l) :
    List.Sorted (fun a b => pyLe a b = true) l := by
  have : IsTrans String (fun a b => pyLt a b = true) :=
    ⟨fun _ _ _ h1 h2 => pyLt_trans h1 h2⟩
  have hp : List.Pairwise (fun a b => pyLt a b = true) l :=
    List.chain'_iff_pairwise.mp h
  exact hp.imp (fun hab => (pyLt_iff.mp hab).1)

/-- Sorting a canonically sorted token list is the identity. -/
theorem pySorted_eq_self {l : List String}
    (h : List.Sorted (fun a b => pyLe a b = true) l) : pySorted l = l :=
  h.insertionSort_eq

/-- Claim C1 (code bug): Stage 1 should emit, for EVERY unordered postfix
pair of a group, the k-1 prefix-drop subsets of the tentative candidate as
probes.  The source allocates the `sub_prefix_combinations` generator once
(candidate_generator.py:160), outside the pair loop, so it is exhausted
after the first pair.  On the group of prefix `a b` with postfixes
`c d e` (from `F_3` records `a b c\t2`, `a b d\t2`, `a b e\t2`), the
first pair `(c,d)` gets its two probes but the candidates `a b c e` and
`a b d e` of the later pairs get none, where the claim requires two each. -/
theorem c1_stage1_probe_generator_exhausted :
    ((c1Group.filter (fun kv => kv.2.1 = ["a", "b", "c", "d"])).length = 2)
    ∧ ((c1Group.filter (fun kv => kv.2.1 = ["a", "b", "c", "e"])).length = 0)
    ∧ ((c1Group.filter (fun kv => kv.2.1 = ["a", "b", "d", "e"])).length = 0) := by
  decide

/-- Claim C4 (code bug): the Support Converter is claimed to emit exactly
one record `floor(p * N)`, with `p = 0` yielding `0` and `N = 0` yielding
`0`.  The source's `reducer_init` replaces a falsy decimal support by the
default (`self.options.min_support_decimal or 0.5`,
decimal_support_converter.py:131-133), so `p = 0` on a 3-transaction
database emits `1 = floor(0.5 * 3)` instead of `0`; and with `N = 0` the
mapper emits no key at all, so no reducer runs and the job emits no
record rather than `0`. -/
theorem c4_converter_zero_support_and_empty_db :
    DecimalSupportConverter.converterJob ["t1\ta", "t2\tb", "t3\tc"] 0 = [1]
    ∧ (1 : ℤ) ≠ ⌊(0 : ℚ) * 3⌋
    ∧ DecimalSupportConverter.converterJob [] (1 / 2) = [] := by
  refine ⟨?_, by norm_num, by decide⟩
  have hmap : ["t1\ta", "t2\tb", "t3\tc"].flatMap DecimalSupportConverter.mapper
      = [("total_transactions", 1), ("total_transactions", 1),
         ("total_transactions", 1)] := by decide
  have hded : (([("total_transactions", (1 : ℕ)), ("total_transactions", 1),
      ("total_transactions", 1)].map Prod.fst).dedup) = ["total_transactions"] := by
    decide
  have hgrp : groupVals [("total_transactions", (1 : ℕ)),
      ("total_transactions", 1), ("total_transactions", 1)]
      "total_transactions" = [1, 1, 1] := by decide
  simp only [DecimalSupportConverter.converterJob, hmap, runReduce, hded, hgrp,
    List.flatMap_cons, List.flatMap_nil, List.append_nil,
    DecimalSupportConverter.reducer, DecimalSupportConverter.reducer_init,
    if_pos rfl, List.map_map, List.map_cons, List.map_nil]
  norm_num [hgrp]

/-- Claim C8 counterexample: the driver started with `--min-support -5`
(a configuration error; one existing input file).  The mining run aborts
at once — `find_frequent_itemsets` raises `ValueError` before any job
I/O, `execute_frequent_itemsets_finding` catches it and returns `False`
(main.py:110-113), and `frequent_itemsets_mining` returns early
(main.py:464-465) — but `main` returns `None` and the process exits with
code 0, not the nonzero exit the claim requires. -/
theorem c8_config_error_exits_zero :
    MainDriver.frequent_itemsets_mining allOkEnv 1 (-5) 100 = (false, [])
    ∧ MainDriver.main_exit_code allOkEnv true 1 (-5) 100 = 0 := by
  decide

/-- Claim C8 amended: a negative `--min-support` is surfaced
synchronously (the validation prologue fails before any MapReduce job is
started) and is fatal to the mining loop (it returns early, skipping
finalization), but the process exit code is 0 for every runtime
environment; nonzero exits happen only at the argparse layer. -/
theorem c8_config_error_aborts_but_exit_zero (env : MainDriver.DriverEnv)
    (m : ℤ) (f : ℕ) (mi : ℤ) (hm : m < 0) :
    MainDriver.frequent_itemsets_mining env 1 m (f + 1) = (false, [])
    ∧ MainDriver.main_exit_code env true 1 m mi = 0 := by
  have hm1 : m < 1 := lt_trans hm one_pos
  constructor
  · simp only [MainDriver.frequent_itemsets_mining, MainDriver.miningLoop,
      MainDriver.execute_frequent_itemsets_finding,
      MainDriver.find_frequent_itemsets_validation]
    norm_num [hm1, Except.isOk, Except.toBool]
  · simp [MainDriver.main_exit_code]

/-- Witness for `c8_config_error_aborts_but_exit_zero` at
`m = -5`, fuel 100, `mi = 100`. -/
theorem c8_config_error_aborts_but_exit_zero_witness :
    MainDriver.frequent_itemsets_mining allOkEnv 1 (-5) (99 + 1) = (false, [])
    ∧ MainDriver.main_exit_code allOkEnv true 1 (-5) 100 = 0 :=
  c8_config_error_aborts_but_exit_zero allOkEnv (-5) 99 100 (by norm_num)

/-- Claim C9: a missing or unreadable candidate file is swallowed at task
init (`except FileNotFoundError: pass`, `except IOError: pass`,
itemset_support_counter.py:280-283): the load returns the empty list, the
job runs in candidate mode with no interesting itemset, the mapper emits
nothing for any transaction, and the job output is empty — no exception,
no records. -/
theorem c9_missing_candidate_file_silently_empty (e : String)
    (db : List String) (m : ℤ) :
    ItemsetSupportCounter.load_itemsets_from_file (.error e) = []
    ∧ ItemsetSupportCounter.job db [.error e] m = [] := by
  constructor
  · rfl
  · have hmap : ∀ line, ItemsetSupportCounter.mapper [] true line = [] := by
      intro line
      unfold ItemsetSupportCounter.mapper
      cases ItemsetSupportCounter.parsedItems line <;> simp
    have hinit : ItemsetSupportCounter.taskInit [.error e] = (true, []) := rfl
    have hnil : db.flatMap (ItemsetSupportCounter.mapper [] true) = [] :=
      List.flatMap_eq_nil_iff.mpr (fun x _ => hmap x)
    simp [ItemsetSupportCounter.job, hinit, runReduce, hnil]

/-!
Inversion lemmas for the Python string primitives: splitting a join
recovers the parts, and stripping leaves whitespace-free-ended strings
unchanged.
-/

theorem splitChars_cons (sep c : Char) (l : List Char) :
    splitChars sep (c :: l) =
      match splitChars sep l with
      | cur :: rest => if c = sep then [] :: cur :: rest else (c :: cur) :: rest
      | [] => [[c]] := rfl

theorem splitChars_ne_nil (sep : Char) : ∀ l : List Char, splitChars sep l ≠ []
  | [] => by simp [splitChars]
  | c :: l => by
      rw [splitChars_cons]
      cases h : splitChars sep l with
      | nil => simp
      | cons cur rest => dsimp only; split <;> simp

theorem splitChars_sepfree (sep : Char) :
    ∀ p : List Char, sep ∉ p → splitChars sep p = [p]
  | [], _ => rfl
  | c :: p, h => by
      have hc : ¬ c = sep := fun hc => h (hc ▸ List.mem_cons_self c p)
      rw [splitChars_cons,
        splitChars_sepfree sep p (fun hm => h (List.mem_cons_of_mem _ hm))]
      simp [hc]

theorem splitChars_append_sep (sep : Char) :
    ∀ (p l : List Char), sep ∉ p →
      splitChars sep (p ++ sep :: l) = p :: splitChars sep l
  | [], l, _ => by
      rw [List.nil_append, splitChars_cons]
      cases h : splitChars sep l with
      | nil => exact absurd h (splitChars_ne_nil sep l)
      | cons cur rest => simp
  | c :: p, l, h => by
      have hc : ¬ c = sep := fun hc => h (hc ▸ List.mem_cons_self c p)
      have hp : sep ∉ p := fun hm => h (List.mem_cons_of_mem _ hm)
      rw [List.cons_append, splitChars_cons, splitChars_append_sep sep p l hp]
      simp [hc]

theorem joinSep_cons_cons (sep : Char) (p q : List Char)
    (rest : List (List Char)) :
    joinSep sep (p :: q :: rest) = p ++ sep :: joinSep sep (q :: rest) := rfl

theorem splitChars_joinSep (sep : Char) :
    ∀ parts : List (List Char), parts ≠ [] → (∀ p ∈ parts, sep ∉ p) →
      splitChars sep (joinSep sep parts) = parts
  | [], h, _ => absurd rfl h
  | [p], _, h2 => by
      rw [joinSep]
      exact splitChars_sepfree sep p (h2 p (List.mem_singleton_self p))
  | p :: q :: rest, _, h2 => by
      rw [joinSep_cons_cons,
        splitChars_append_sep sep p _ (h2 p (List.mem_cons_self _ _)),
        splitChars_joinSep sep (q :: rest) (by simp)
          (fun x hx => h2 x (List.mem_cons_of_mem _ hx))]

theorem mk_data_eq (s : String) : String.mk s.data = s := by cases s; rfl

theorem pySplit_pyJoin (sep : Char) (parts : List String) (h1 : parts ≠ [])
    (h2 : ∀ p ∈ parts, sep ∉ p.data) :
    pySplit (pyJoin sep parts) sep = parts := by
  show ((splitChars sep (joinSep sep (parts.map String.data))).map
    (fun cs => String.mk cs)) = parts
  rw [splitChars_joinSep sep (parts.map String.data) (by simpa using h1)
    (by
      intro p hp
      rcases List.mem_map.mp hp with ⟨q, hq, rfl⟩
      exact h2 q hq)]
  rw [List.map_map]
  have : ∀ p ∈ parts, ((fun cs => String.mk cs) ∘ String.data) p = id p :=
    fun p _ => mk_data_eq p
  rw [List.map_congr_left this, List.map_id]

theorem dropWhile_isWs_eq_self {l : List Char}
    (h : ∀ c, l.head? = some c → isWs c = false) :
    l.dropWhile isWs = l := by
  cases l with
  | nil => rfl
  | cons a t => rw [List.dropWhile_cons]; simp [h a rfl]

theorem pyStrip_eq_self {s : String}
    (h1 : ∀ c, s.data.head? = some c → isWs c = false)
    (h2 : ∀ c, s.data.getLast? = some c → isWs c = false) :
    pyStrip s = s := by
  have e2 : s.data.reverse.dropWhile isWs = s.data.reverse :=
    dropWhile_isWs_eq_self (by
      intro c hc
      rw [List.head?_reverse] at hc
      exact h2 c hc)
  show String.mk ((s.data.dropWhile isWs).reverse.dropWhile isWs).reverse = s
  rw [dropWhile_isWs_eq_self h1, e2, List.reverse_reverse, mk_data_eq]

theorem mem_of_head?_eq {c : Char} {l : List Char} (h : l.head? = some c) :
    c ∈ l := by
  cases l with
  | nil => simp at h
  | cons a t =>
      simp only [List.head?_cons, Option.some.injEq] at h
      exact h ▸ List.mem_cons_self a t

theorem mem_of_getLast?_eq {c : Char} {l : List Char}
    (h : l.getLast? = some c) : c ∈ l := by
  rcases List.getLast?_eq_some_iff.mp h with ⟨ys, rfl⟩
  simp

/-- Stripping a string all of whose characters are non-whitespace is the
identity. -/
theorem pyStrip_eq_self_of_forall {s : String}
    (h : ∀ c ∈ s.data, isWs c = false) : pyStrip s = s :=
  pyStrip_eq_self (fun c hc => h c (mem_of_head?_eq hc))
    (fun c hc => h c (mem_of_getLast?_eq hc))

theorem joinSep_ne_nil (sep : Char) :
    ∀ parts : List (List Char), parts ≠ [] → (∀ p ∈ parts, p ≠ []) →
      joinSep sep parts ≠ []
  | [], h, _ => absurd rfl h
  | [p], _, h2 => by rw [joinSep]; exact h2 p (List.mem_singleton_self p)
  | p :: q :: rest, _, h2 => by
      rw [joinSep_cons_cons]
      intro hcontra
      rcases List.append_eq_nil.mp hcontra with ⟨_, h3⟩
      simp at h3

theorem head?_joinSep (sep : Char) (p : List Char) (ps : List (List Char))
    (hp : p ≠ []) : (joinSep sep (p :: ps)).head? = p.head? := by
  cases ps with
  | nil => rw [joinSep]
  | cons q rest =>
      rw [joinSep_cons_cons, List.head?_append]
      cases hh : p.head? with
      | none => exact absurd (List.head?_eq_none_iff.mp hh) hp
      | some c => rfl

theorem getLast?_joinSep (sep : Char) :
    ∀ parts : List (List Char), (∀ p ∈ parts, p ≠ []) →
      ∀ c, (joinSep sep parts).getLast? = some c → ∃ p ∈ parts, c ∈ p
  | [], _, c => by intro h; simp [joinSep] at h
  | [p], _, c => by
      intro h
      exact ⟨p, List.mem_singleton_self p, mem_of_getLast?_eq h⟩
  | p :: q :: rest, h1, c => by
      intro h
      rw [joinSep_cons_cons, List.getLast?_append] at h
      have hne : joinSep sep (q :: rest) ≠ [] :=
        joinSep_ne_nil sep (q :: rest) (by simp)
          (fun x hx => h1 x (List.mem_cons_of_mem _ hx))
      have : (sep :: joinSep sep (q :: rest)).getLast? =
          (joinSep sep (q :: rest)).getLast? := by
        cases hj : joinSep sep (q :: rest) with
        | nil => exact absurd hj hne
        | cons a t => simp
      rw [this] at h
      cases hg : (joinSep sep (q :: rest)).getLast? with
      | none => exact absurd (List.getLast?_eq_none_iff.mp hg) hne
      | some d =>
          rw [hg] at h
          simp only [Option.or_some, Option.some.injEq] at h
          subst h
          rcases getLast?_joinSep sep (q :: rest)
            (fun x hx => h1 x (List.mem_cons_of_mem _ hx)) d hg with ⟨x, hx, hcx⟩
          exact ⟨x, List.mem_cons_of_mem _ hx, hcx⟩

theorem mem_joinSep (sep : Char) :
    ∀ (parts : List (List Char)) (c : Char),
      c ∈ joinSep sep parts → c = sep ∨ ∃ p ∈ parts, c ∈ p
  | [], c => by intro h; simp [joinSep] at h
  | [p], c => by
      intro h
      right
      exact ⟨p, List.mem_singleton_self p, by simpa [joinSep] using h⟩
  | p :: q :: rest, c => by
      intro h
      rw [joinSep_cons_cons] at h
      rcases List.mem_append.mp h with h | h
      · right; exact ⟨p, List.mem_cons_self p _, h⟩
      · rcases List.mem_cons.mp h with rfl | h
        · left; rfl
        · rcases mem_joinSep sep (q :: rest) c h with h | ⟨x, hx, hcx⟩
          · left; exact h
          · right; exact ⟨x, List.mem_cons_of_mem _ hx, hcx⟩

/-- A well-formed transaction line `name\titems` (non-empty whitespace-free
transaction id; non-empty itemset field with no tab and a non-whitespace
last character) parses in the Support Counter mapper into the item set of
its itemset field. -/
theorem parsedItems_wellformed (name itemsStr : String)
    (hn1 : name.data ≠ []) (hn2 : ∀ c ∈ name.data, isWs c = false)
    (hi1 : itemsStr.data ≠ []) (hit : '\t' ∉ itemsStr.data)
    (hlast : ∀ c, itemsStr.data.getLast? = some c → isWs c = false) :
    ItemsetSupportCounter.parsedItems (name ++ "\t" ++ itemsStr)
      = some (ItemsetSupportCounter.string_to_itemset itemsStr ' ') := by
  have hdata : (name ++ "\t" ++ itemsStr).data
      = name.data ++ '\t' :: itemsStr.data := by
    simp [String.data_append]
  have hstrip : pyStrip (name ++ "\t" ++ itemsStr) = name ++ "\t" ++ itemsStr := by
    apply pyStrip_eq_self
    · intro c hc
      rw [hdata, List.head?_append] at hc
      cases hh : name.data.head? with
      | none => exact absurd (List.head?_eq_none_iff.mp hh) hn1
      | some d =>
          rw [hh] at hc
          simp only [Option.or_some, Option.some.injEq] at hc
          exact hc ▸ hn2 d (mem_of_head?_eq hh)
    · intro c hc
      rw [hdata, List.getLast?_append] at hc
      have hcons : ('\t' :: itemsStr.data).getLast? = itemsStr.data.getLast? := by
        cases hι : itemsStr.data with
        | nil => exact absurd hι hi1
        | cons a t => simp
      rw [hcons] at hc
      cases hg : itemsStr.data.getLast? with
      | none => exact absurd (List.getLast?_eq_none_iff.mp hg) hi1
      | some d =>
          rw [hg] at hc
          simp only [Option.or_some, Option.some.injEq] at hc
          exact hc ▸ hlast d hg
  unfold ItemsetSupportCounter.parsedItems
  rw [hstrip]
  have hsplit : pySplit (name ++ "\t" ++ itemsStr) '\t' = [name, itemsStr] := by
    show (splitChars '\t' (name ++ "\t" ++ itemsStr).data).map
      (fun cs => String.mk cs) = _
    rw [hdata,
      splitChars_append_sep '\t' name.data itemsStr.data
        (fun hm => absurd (hn2 '\t' hm) (by decide)),
      splitChars_sepfree '\t' itemsStr.data hit]
    simp [mk_data_eq]
  rw [hsplit]

/-- Parsing the space-join of a list of non-empty whitespace-free tokens
yields the canonical set representation of those tokens. -/
theorem string_to_itemset_join (l : List String) (hl : l ≠ [])
    (ht : ∀ t ∈ l, t.data ≠ [] ∧ ∀ c ∈ t.data, isWs c = false) :
    ItemsetSupportCounter.string_to_itemset (pyJoin ' ' l) ' '
      = pySorted l.dedup := by
  unfold ItemsetSupportCounter.string_to_itemset
  have hstrip : pyStrip (pyJoin ' ' l) = pyJoin ' ' l := by
    apply pyStrip_eq_self
    · intro c hc
      cases l with
      | nil => exact absurd rfl hl
      | cons t rest =>
          have he : (pyJoin ' ' (t :: rest)).data
              = joinSep ' ' (t.data :: rest.map String.data) := rfl
          rw [he, head?_joinSep ' ' t.data _
            (ht t (List.mem_cons_self t rest)).1] at hc
          exact (ht t (List.mem_cons_self t rest)).2 c (mem_of_head?_eq hc)
    · intro c hc
      have he : (pyJoin ' ' l).data = joinSep ' ' (l.map String.data) := rfl
      rw [he] at hc
      rcases getLast?_joinSep ' ' (l.map String.data)
        (by
          intro p hp
          rcases List.mem_map.mp hp with ⟨q, hq, rfl⟩
          exact (ht q hq).1) c hc with ⟨p, hp, hcp⟩
      rcases List.mem_map.mp hp with ⟨q, hq, rfl⟩
      exact (ht q hq).2 c hcp
  rw [hstrip, pySplit_pyJoin ' ' l hl
    (fun p hp hm => absurd ((ht p hp).2 ' ' hm) (by decide))]
  have hmapstrip : l.map pyStrip = l := by
    rw [List.map_congr_left
      (fun t htl => pyStrip_eq_self_of_forall (ht t htl).2)]
    simp only [List.map_id_fun', id]
  rw [hmapstrip]
  have hfilter : l.filter (fun x => x ≠ "") = l :=
    List.filter_eq_self.mpr (fun a ha => by
      have := (ht a ha).1
      simp only [ne_eq, decide_eq_true_eq]
      intro hcontra
      exact this (by rw [hcontra]))
  rw [hfilter]

theorem pyJoin_wellformed (l : List String) (hl : l ≠ [])
    (ht : ∀ t ∈ l, t.data ≠ [] ∧ ∀ c ∈ t.data, isWs c = false) :
    (pyJoin ' ' l).data ≠ [] ∧ '\t' ∉ (pyJoin ' ' l).data
    ∧ ∀ c, (pyJoin ' ' l).data.getLast? = some c → isWs c = false := by
  have he : (pyJoin ' ' l).data = joinSep ' ' (l.map String.data) := rfl
  have hparts : ∀ p ∈ l.map String.data, p ≠ [] := by
    intro p hp
    rcases List.mem_map.mp hp with ⟨q, hq, rfl⟩
    exact (ht q hq).1
  refine ⟨?_, ?_, ?_⟩
  · rw [he]
    exact joinSep_ne_nil ' ' (l.map String.data) (by simpa using hl) hparts
  · rw [he]
    intro hm
    rcases mem_joinSep ' ' (l.map String.data) '\t' hm with h | ⟨p, hp, hcp⟩
    · exact absurd h (by decide)
    · rcases List.mem_map.mp hp with ⟨q, hq, rfl⟩
      exact absurd ((ht q hq).2 '\t' hcp) (by decide)
  · intro c hc
    rw [he] at hc
    rcases getLast?_joinSep ' ' (l.map String.data) hparts c hc with ⟨p, hp, hcp⟩
    rcases List.mem_map.mp hp with ⟨q, hq, rfl⟩
    exact (ht q hq).2 c hcp

/-- Claim C10: a transaction line listing an item more than once counts
the transaction at most once toward any support: the mapper parses the
item list into a set (`string_to_itemset`,
itemset_support_counter.py:140,228-240), so its output on the line with
duplicated tokens equals its output on the deduplicated line, in both
singleton and candidate mode.  (Tokens are non-empty and whitespace-free
and the transaction id is non-empty, whitespace-free — the input contract
of the job.) -/
theorem c10_duplicates_within_line_never_inflate
    (interested : List (List String)) (scanning : Bool) (name : String)
    (l : List String) (hl : l ≠ [])
    (hn1 : name.data ≠ []) (hn2 : ∀ c ∈ name.data, isWs c = false)
    (ht : ∀ t ∈ l, t.data ≠ [] ∧ ∀ c ∈ t.data, isWs c = false) :
    ItemsetSupportCounter.mapper interested scanning
        (name ++ "\t" ++ pyJoin ' ' l)
      = ItemsetSupportCounter.mapper interested scanning
        (name ++ "\t" ++ pyJoin ' ' l.dedup) := by
  have hl' : l.dedup ≠ [] := by
    rcases List.exists_mem_of_ne_nil l hl with ⟨a, ha⟩
    exact List.ne_nil_of_mem (List.mem_dedup.mpr ha)
  have ht' : ∀ t ∈ l.dedup, t.data ≠ [] ∧ ∀ c ∈ t.data, isWs c = false :=
    fun t htl => ht t (List.mem_dedup.mp htl)
  obtain ⟨hj1, hj2, hj3⟩ := pyJoin_wellformed l hl ht
  obtain ⟨hd1, hd2, hd3⟩ := pyJoin_wellformed l.dedup hl' ht'
  unfold ItemsetSupportCounter.mapper
  rw [parsedItems_wellformed name (pyJoin ' ' l) hn1 hn2 hj1 hj2 hj3,
    parsedItems_wellformed name (pyJoin ' ' l.dedup) hn1 hn2 hd1 hd2 hd3,
    string_to_itemset_join l hl ht,
    string_to_itemset_join l.dedup hl' ht',
    List.dedup_idem]

/-- Witness for `c10_duplicates_within_line_never_inflate`: the line
`t1\tb a a` against candidate `{a}` in candidate mode. -/
theorem c10_duplicates_witness :
    ItemsetSupportCounter.mapper [["a"]] true
        ("t1" ++ "\t" ++ pyJoin ' ' ["b", "a", "a"])
      = ItemsetSupportCounter.mapper [["a"]] true
        ("t1" ++ "\t" ++ pyJoin ' ' ["b", "a", "a"].dedup) :=
  c10_duplicates_within_line_never_inflate [["a"]] true "t1" ["b", "a", "a"]
    (by decide) (by decide) (by decide) (by decide)

theorem find?_replace (d : List (String × ℕ)) (k : String) (v : ℕ) :
    ((d.map (fun e => if e.1 = k then (k, v) else e)).find?
        (fun e => e.1 = k))
      = (d.find? (fun e => e.1 = k)).map (fun _ => (k, v)) := by
  induction d with
  | nil => rfl
  | cons e d ih =>
      by_cases he : e.1 = k
      · simp only [List.map_cons, if_pos he]
        rw [List.find?_cons_of_pos _ (by simp),
          List.find?_cons_of_pos _ (by simp [he])]
        rfl
      · simp only [List.map_cons, if_neg he]
        rw [List.find?_cons_of_neg _ (by simp [he]),
          List.find?_cons_of_neg _ (by simp [he])]
        exact ih

theorem dictGet_dictSet_self (d : List (String × ℕ)) (k : String) (v : ℕ) :
    AprioriCore.dictGet (AprioriCore.dictSet d k v) k = some v := by
  unfold AprioriCore.dictGet AprioriCore.dictSet
  by_cases h : (d.find? (fun e => e.1 = k)).isSome
  · rw [if_pos h, find?_replace]
    rcases Option.isSome_iff_exists.mp h with ⟨e, he⟩
    rw [he]
    rfl
  · rw [if_neg h, List.find?_append,
      Option.not_isSome_iff_eq_none.mp h]
    simp

theorem find?_replace_ne (d : List (String × ℕ)) (k k' : String) (v : ℕ)
    (h : k' ≠ k) :
    ((d.map (fun e => if e.1 = k then (k, v) else e)).find?
        (fun e => e.1 = k'))
      = d.find? (fun e => e.1 = k') := by
  induction d with
  | nil => rfl
  | cons e d ih =>
      by_cases he : e.1 = k
      · have h1 : ¬ ((k, v).1 = k') := fun hc => h hc.symm
        have h2 : ¬ (e.1 = k') := by
          rw [he]; exact fun hc => h hc.symm
        simp only [List.map_cons, if_pos he]
        rw [List.find?_cons_of_neg _ (by simp [h1]),
          List.find?_cons_of_neg _ (by simp [h2])]
        exact ih
      · by_cases he' : e.1 = k'
        · simp only [List.map_cons, if_neg he]
          rw [List.find?_cons_of_pos _ (by simp [he']),
            List.find?_cons_of_pos _ (by simp [he'])]
        · simp only [List.map_cons, if_neg he]
          rw [List.find?_cons_of_neg _ (by simp [he']),
            List.find?_cons_of_neg _ (by simp [he'])]
          exact ih

theorem dictGet_dictSet_ne (d : List (String × ℕ)) (k k' : String) (v : ℕ)
    (h : k' ≠ k) :
    AprioriCore.dictGet (AprioriCore.dictSet d k v) k'
      = AprioriCore.dictGet d k' := by
  unfold AprioriCore.dictGet AprioriCore.dictSet
  by_cases hs : (d.find? (fun e => e.1 = k)).isSome
  · rw [if_pos hs, find?_replace_ne d k k' v h]
  · rw [if_neg hs, List.find?_append]
    cases hfind : d.find? (fun e => decide (e.1 = k')) with
    | some e => simp [hfind]
    | none =>
        have h1 : ¬ ((k, v).1 = k') := fun hc => h hc.symm
        simp [hfind, h1]

theorem buildSupportDict_cons (d : List (String × ℕ)) (b : String) (u : ℕ)
    (rest : List (String × ℕ)) :
    AprioriCore.buildSupportDict d ((b, u) :: rest)
      = match AprioriCore.dictGet d b with
        | some prev =>
            if prev ≠ 0 ∧ prev ≠ u then
              .error "Item has inconsistent support values"
            else AprioriCore.buildSupportDict (AprioriCore.dictSet d b u) rest
        | none => AprioriCore.buildSupportDict (AprioriCore.dictSet d b u) rest :=
  rfl

/-- If some item is recorded in the dict with a non-zero support and a
record with a different support for it is still to come, the dict build
aborts. -/
theorem buildSupportDict_error_of_recorded (a : String) :
    ∀ (records : List (String × ℕ)) (d : List (String × ℕ)) (s t : ℕ),
      AprioriCore.dictGet d a = some s → s ≠ 0 → (a, t) ∈ records → t ≠ s →
      ∃ e, AprioriCore.buildSupportDict d records = .error e
  | [], d, s, t => by intro _ _ hmem _; simp at hmem
  | (b, u) :: rest, d, s, t => by
      intro hget hs0 hmem hts
      rw [buildSupportDict_cons]
      by_cases hba : b = a
      · subst hba
        rw [hget]
        dsimp only
        rcases List.mem_cons.mp hmem with heq | hmem'
        · -- the head record is (b, t): the conflict fires right here
          have hu : u = t := congrArg Prod.snd heq.symm
          subst hu
          rw [if_pos ⟨hs0, fun h => hts h.symm⟩]
          exact ⟨_, rfl⟩
        · by_cases herr : s ≠ 0 ∧ s ≠ u
          · rw [if_pos herr]; exact ⟨_, rfl⟩
          · rw [if_neg herr]
            have hsu : s = u := by
              by_contra hne
              exact herr ⟨hs0, hne⟩
            exact buildSupportDict_error_of_recorded b rest
              (AprioriCore.dictSet d b u) s t
              (by rw [dictGet_dictSet_self, hsu]) hs0 hmem' hts
      · have hmem' : (a, t) ∈ rest := by
          rcases List.mem_cons.mp hmem with heq | hmem'
          · exact absurd (congrArg Prod.fst heq).symm hba
          · exact hmem'
        have hget' : AprioriCore.dictGet (AprioriCore.dictSet d b u) a = some s := by
          rw [dictGet_dictSet_ne d b a u (fun h => hba h.symm), hget]
        cases hgb : AprioriCore.dictGet d b with
        | some prev =>
            dsimp only
            by_cases herr : prev ≠ 0 ∧ prev ≠ u
            · rw [if_pos herr]; exact ⟨_, rfl⟩
            · rw [if_neg herr]
              exact buildSupportDict_error_of_recorded a rest
                (AprioriCore.dictSet d b u) s t hget' hs0 hmem' hts
        | none =>
            dsimp only
            exact buildSupportDict_error_of_recorded a rest
              (AprioriCore.dictSet d b u) s t hget' hs0 hmem' hts

/-- If the record stream contains the same item with two different
non-zero supports, the dict build aborts. -/
theorem buildSupportDict_error_of_conflict (a : String) (s t : ℕ)
    (hs : s ≠ 0) (ht : t ≠ 0) (hst : s ≠ t) :
    ∀ (records d : List (String × ℕ)),
      (a, s) ∈ records → (a, t) ∈ records →
      ∃ e, AprioriCore.buildSupportDict d records = .error e
  | [], d => by intro h _; simp at h
  | (b, u) :: rest, d => by
      intro hmem1 hmem2
      rcases List.mem_cons.mp hmem1 with he1 | h1
      · -- (a, s) is the head record; afterwards a ↦ s is recorded
        cases he1
        rcases List.mem_cons.mp hmem2 with he2 | h2
        · have hts : t = s := congrArg Prod.snd he2
          exact absurd hts (fun h => hst h.symm)
        · rw [buildSupportDict_cons]
          cases hgb : AprioriCore.dictGet d a with
          | some prev =>
              dsimp only
              by_cases herr : prev ≠ 0 ∧ prev ≠ s
              · rw [if_pos herr]; exact ⟨_, rfl⟩
              · rw [if_neg herr]
                exact buildSupportDict_error_of_recorded a rest
                  (AprioriCore.dictSet d a s) s t
                  (dictGet_dictSet_self d a s) hs h2 (fun h => hst h.symm)
          | none =>
              dsimp only
              exact buildSupportDict_error_of_recorded a rest
                (AprioriCore.dictSet d a s) s t
                (dictGet_dictSet_self d a s) hs h2 (fun h => hst h.symm)
      · rcases List.mem_cons.mp hmem2 with he2 | h2
        · -- (a, t) is the head record; afterwards a ↦ t is recorded
          cases he2
          rw [buildSupportDict_cons]
          cases hgb : AprioriCore.dictGet d a with
          | some prev =>
              dsimp only
              by_cases herr : prev ≠ 0 ∧ prev ≠ t
              · rw [if_pos herr]; exact ⟨_, rfl⟩
              · rw [if_neg herr]
                exact buildSupportDict_error_of_recorded a rest
                  (AprioriCore.dictSet d a t) t s
                  (dictGet_dictSet_self d a t) ht h1 hst
          | none =>
              dsimp only
              exact buildSupportDict_error_of_recorded a rest
                (AprioriCore.dictSet d a t) t s
                (dictGet_dictSet_self d a t) ht h1 hst
        · -- both occurrences are in the tail
          rw [buildSupportDict_cons]
          cases hgb : AprioriCore.dictGet d b with
          | some prev =>
              dsimp only
              by_cases herr : prev ≠ 0 ∧ prev ≠ u
              · rw [if_pos herr]; exact ⟨_, rfl⟩
              · rw [if_neg herr]
                exact buildSupportDict_error_of_conflict a s t hs ht hst rest
                  (AprioriCore.dictSet d b u) h1 h2
          | none =>
              dsimp only
              exact buildSupportDict_error_of_conflict a s t hs ht hst rest
                (AprioriCore.dictSet d b u) h1 h2

/-- Claim C7 counterexample: the singleton `a` appears with supports 0 and
5 across two `F_1` input files, yet `generate_candidate_2_itemsets`
returns normally (no pairs, since only one item) instead of raising.  The
conflict check `frequent_one_itemsets.get(item) and
frequent_one_itemsets[item] != support` (apriori_core.py:231) treats the
recorded support 0 as falsy, so the conflict passes silently and the
later support wins. -/
theorem c7_zero_support_conflict_not_detected :
    AprioriCore.generate_candidate_2_itemsets [["a\t0"], ["a\t5"]]
      = .ok ([], 0) := by
  rfl

/-- Claim C7 amended: if the same singleton appears in the extracted
records with two different supports that are both non-zero (as is always
the case for genuine `F_1` lineage, where supports are at least the
minimum support), `generate_candidate_2_itemsets` aborts with an error
and produces no candidate list. -/
theorem c7_conflicting_nonzero_supports_abort (files : List (List String))
    (a : String) (s t : ℕ) (hs : s ≠ 0) (ht : t ≠ 0) (hst : s ≠ t)
    (h1 : (a, s) ∈ files.flatMap AprioriCore.extract_itemsets_and_supports)
    (h2 : (a, t) ∈ files.flatMap AprioriCore.extract_itemsets_and_supports) :
    ∃ e, AprioriCore.generate_candidate_2_itemsets files = .error e := by
  rcases buildSupportDict_error_of_conflict a s t hs ht hst
    (files.flatMap AprioriCore.extract_itemsets_and_supports) [] h1 h2 with ⟨e, he⟩
  refine ⟨e, ?_⟩
  unfold AprioriCore.generate_candidate_2_itemsets
  rw [he]
  rfl

/-- Witness for `c7_conflicting_nonzero_supports_abort`: files
`["a\t5"]` and `["a\t3"]`. -/
theorem c7_conflicting_nonzero_supports_abort_witness :
    ∃ e, AprioriCore.generate_candidate_2_itemsets [["a\t5"], ["a\t3"]]
      = .error e :=
  c7_conflicting_nonzero_supports_abort [["a\t5"], ["a\t3"]] "a" 5 3
    (by decide) (by decide) (by decide) (by decide) (by decide)

theorem pairsComb_length {α : Type} :
    ∀ l : List α, 2 * (pairsComb l).length = l.length * (l.length - 1)
  | [] => rfl
  | x :: xs => by
      have ih := pairsComb_length xs
      simp only [pairsComb, List.length_append, List.length_map,
        List.length_cons]
      cases hxl : xs.length with
      | zero => rw [hxl] at ih; omega
      | succ m =>
          rw [hxl] at ih
          simp only [Nat.add_sub_cancel] at ih ⊢
          have e1 : (m + 1 + 1) * (m + 1) = (m + 1) * m + 2 * (m + 1) := by ring
          omega

theorem mem_pairsComb {α : Type} {a b : α} :
    ∀ {l : List α}, (a, b) ∈ pairsComb l →
      ∃ l1 l2 l3, l = l1 ++ a :: l2 ++ b :: l3
  | [], h => by simp [pairsComb] at h
  | x :: xs, h => by
      rcases List.mem_append.mp h with h | h
      · rcases List.mem_map.mp h with ⟨y, hy, hxy⟩
        obtain ⟨rfl, rfl⟩ := Prod.mk.injEq a b x y |>.mp hxy.symm |>.imp Eq.symm Eq.symm
        rcases List.append_of_mem hy with ⟨l2, l3, rfl⟩
        exact ⟨[], l2, l3, rfl⟩
      · rcases mem_pairsComb h with ⟨l1, l2, l3, rfl⟩
        exact ⟨x :: l1, l2, l3, rfl⟩

theorem pairsComb_mem_of_split {α : Type} (a b : α) :
    ∀ (l1 l2 l3 : List α), (a, b) ∈ pairsComb (l1 ++ a :: l2 ++ b :: l3)
  | [], l2, l3 => by
      simp only [List.nil_append, pairsComb, List.mem_append, List.mem_map]
      exact Or.inl ⟨b, by simp, rfl⟩
  | x :: l1, l2, l3 => by
      simp only [List.cons_append, pairsComb, List.mem_append]
      exact Or.inr (pairsComb_mem_of_split a b l1 l2 l3)

theorem pairsComb_mem_iff {l : List String}
    (hl : List.Pairwise (fun x y => pyLt x y = true) l) (a b : String) :
    (a, b) ∈ pairsComb l ↔ a ∈ l ∧ b ∈ l ∧ pyLt a b = true := by
  induction l with
  | nil => simp [pairsComb]
  | cons x xs ih =>
      have hx : ∀ y ∈ xs, pyLt x y = true :=
        fun y hy => (List.pairwise_cons.mp hl).1 y hy
      have hxs := (List.pairwise_cons.mp hl).2
      constructor
      · intro h
        rcases List.mem_append.mp h with h | h
        · rcases List.mem_map.mp h with ⟨y, hy, hxy⟩
          have hax : a = x := (congrArg Prod.fst hxy).symm
          have hby : b = y := (congrArg Prod.snd hxy).symm
          subst hax; subst hby
          exact ⟨List.mem_cons_self _ _, List.mem_cons_of_mem _ hy, hx _ hy⟩
        · rcases (ih hxs).mp h with ⟨ha, hb, hab⟩
          exact ⟨List.mem_cons_of_mem _ ha, List.mem_cons_of_mem _ hb, hab⟩
      · rintro ⟨ha, hb, hab⟩
        rcases List.mem_cons.mp ha with rfl | ha'
        · rcases List.mem_cons.mp hb with rfl | hb'
          · exact absurd hab (pyLt_irrefl _)
          · exact List.mem_append.mpr (Or.inl (List.mem_map.mpr ⟨b, hb', rfl⟩))
        · rcases List.mem_cons.mp hb with rfl | hb'
          · exact absurd (pyLt_trans hab (hx _ ha')) (pyLt_irrefl _)
          · exact List.mem_append.mpr (Or.inr ((ih hxs).mpr ⟨ha', hb', hab⟩))

theorem nodup_of_pairwise_pyLt {l : List String}
    (hl : List.Pairwise (fun x y => pyLt x y = true) l) : l.Nodup :=
  hl.imp (fun hab => (pyLt_iff.mp hab).2)

theorem pairsComb_nodup {l : List String}
    (hl : List.Pairwise (fun x y => pyLt x y = true) l) :
    (pairsComb l).Nodup := by
  induction l with
  | nil => simp [pairsComb]
  | cons x xs ih =>
      have hx : ∀ y ∈ xs, pyLt x y = true :=
        fun y hy => (List.pairwise_cons.mp hl).1 y hy
      have hxs := (List.pairwise_cons.mp hl).2
      rw [pairsComb, List.nodup_append]
      refine ⟨?_, ih hxs, ?_⟩
      · exact (nodup_of_pairwise_pyLt hxs).map
          (fun y1 y2 h => congrArg Prod.snd h)
      · intro p hp hq
        rcases List.mem_map.mp hp with ⟨y, _, rfl⟩
        have : x ∈ xs := by
          rcases mem_pairsComb hq with ⟨l1, l2, l3, heq⟩
          rw [heq]
          simp
        exact absurd (hx x this) (pyLt_irrefl x)

theorem pairsComb_pairwise {l : List String}
    (hl : List.Pairwise (fun x y => pyLt x y = true) l) :
    (pairsComb l).Pairwise (fun p q =>
      pyLt p.1 q.1 = true ∨ (p.1 = q.1 ∧ pyLt p.2 q.2 = true)) := by
  induction l with
  | nil => simp [pairsComb]
  | cons x xs ih =>
      have hx : ∀ y ∈ xs, pyLt x y = true :=
        fun y hy => (List.pairwise_cons.mp hl).1 y hy
      have hxs := (List.pairwise_cons.mp hl).2
      rw [pairsComb, List.pairwise_append]
      refine ⟨?_, ih hxs, ?_⟩
      · rw [List.pairwise_map]
        exact hxs.imp (fun h => Or.inr ⟨rfl, h⟩)
      · intro p hp q hq
        rcases List.mem_map.mp hp with ⟨y, _, rfl⟩
        have hq1 : q.1 ∈ xs := by
          rcases mem_pairsComb (a := q.1) (b := q.2) (by simpa using hq)
            with ⟨l1, l2, l3, heq⟩
          rw [heq]
          simp
        exact Or.inl (hx q.1 hq1)

theorem keys_dictSet (d : List (String × ℕ)) (k : String) (v : ℕ) :
    (AprioriCore.dictSet d k v).map Prod.fst
      = if k ∈ d.map Prod.fst then d.map Prod.fst
        else d.map Prod.fst ++ [k] := by
  unfold AprioriCore.dictSet
  by_cases h : (d.find? (fun e => e.1 = k)).isSome
  · have hk : k ∈ d.map Prod.fst := by
      rcases List.find?_isSome.mp h with ⟨e, he, hpe⟩
      have he1 : e.1 = k := of_decide_eq_true hpe
      exact he1 ▸ List.mem_map_of_mem Prod.fst he
    rw [if_pos h, if_pos hk, List.map_map]
    apply List.map_congr_left
    intro e _
    by_cases h1 : e.1 = k <;> simp [h1]
  · have hk : k ∉ d.map Prod.fst := by
      intro hk
      rcases List.mem_map.mp hk with ⟨e, he, hek⟩
      exact h (List.find?_isSome.mpr ⟨e, he, by simp [hek]⟩)
    rw [if_neg h, if_neg hk]
    simp

theorem dictGet_mem {d : List (String × ℕ)} {k : String} {v : ℕ}
    (h : AprioriCore.dictGet d k = some v) : (k, v) ∈ d := by
  unfold AprioriCore.dictGet at h
  cases hf : d.find? (fun e => e.1 = k) with
  | none => rw [hf] at h; simp at h
  | some e =>
      rw [hf] at h
      simp only [Option.map_some', Option.some.injEq] at h
      have hpe := List.find?_some hf
      have he1 : e.1 = k := of_decide_eq_true hpe
      have : e = (k, v) := by
        cases e
        simp only [Prod.mk.injEq]
        exact ⟨he1, h⟩
      exact this ▸ List.mem_of_find?_eq_some hf

theorem mem_keys_of_dictGet {d : List (String × ℕ)} {k : String} {v : ℕ}
    (h : AprioriCore.dictGet d k = some v) : k ∈ d.map Prod.fst :=
  List.mem_map_of_mem Prod.fst (dictGet_mem h)

theorem dictGet_isSome_of_mem_keys {d : List (String × ℕ)} {k : String}
    (h : k ∈ d.map Prod.fst) : ∃ v, AprioriCore.dictGet d k = some v := by
  rcases List.mem_map.mp h with ⟨e, he, hek⟩
  unfold AprioriCore.dictGet
  have : (d.find? (fun e => e.1 = k)).isSome :=
    List.find?_isSome.mpr ⟨e, he, by simp [hek]⟩
  rcases Option.isSome_iff_exists.mp this with ⟨e', he'⟩
  exact ⟨e'.2, by rw [he']; rfl⟩

/-- Running the dict build over records drawn from a support-consistent
pool succeeds, and the produced dict has duplicate-free keys that are
exactly the initial keys plus the items of the processed records. -/
theorem buildSupportDict_ok (pool : List (String × ℕ))
    (hcons : ∀ a s t, (a, s) ∈ pool → (a, t) ∈ pool → s = t) :
    ∀ (records d : List (String × ℕ)),
      (∀ r ∈ records, r ∈ pool) →
      (∀ k v, AprioriCore.dictGet d k = some v → (k, v) ∈ pool) →
      (d.map Prod.fst).Nodup →
      ∃ dict, AprioriCore.buildSupportDict d records = .ok dict
        ∧ (dict.map Prod.fst).Nodup
        ∧ (∀ x, x ∈ dict.map Prod.fst ↔
            (x ∈ d.map Prod.fst ∨ ∃ s, (x, s) ∈ records))
  | [], d => by
      intro _ _ hnd
      refine ⟨d, rfl, hnd, ?_⟩
      intro x
      simp
  | (b, u) :: rest, d => by
      intro hrec hdp hnd
      have hbu : (b, u) ∈ pool := hrec (b, u) (List.mem_cons_self _ _)
      have hstep : ∀ k v,
          AprioriCore.dictGet (AprioriCore.dictSet d b u) k = some v →
          (k, v) ∈ pool := by
        intro k v hkv
        by_cases hkb : k = b
        · subst hkb
          rw [dictGet_dictSet_self] at hkv
          cases hkv
          exact hbu
        · rw [dictGet_dictSet_ne d b k u hkb] at hkv
          exact hdp k v hkv
      have hndstep : ((AprioriCore.dictSet d b u).map Prod.fst).Nodup := by
        rw [keys_dictSet]
        by_cases hb : b ∈ d.map Prod.fst
        · rwa [if_pos hb]
        · rw [if_neg hb]
          exact List.Nodup.append hnd (List.nodup_singleton b)
            (fun a ha hab => hb (by rwa [List.mem_singleton.mp hab] at ha))
      rw [buildSupportDict_cons]
      cases hgb : AprioriCore.dictGet d b with
      | some prev =>
          dsimp only
          have hprev : prev = u := hcons b prev u (hdp b prev hgb) hbu
          rw [if_neg (by simp [hprev])]
          rcases buildSupportDict_ok pool hcons rest (AprioriCore.dictSet d b u)
            (fun r hr => hrec r (List.mem_cons_of_mem _ hr)) hstep hndstep
            with ⟨dict, hok, hdnd, hmem⟩
          refine ⟨dict, hok, hdnd, ?_⟩
          intro x
          rw [hmem x, keys_dictSet]
          have hbk : b ∈ d.map Prod.fst := mem_keys_of_dictGet hgb
          rw [if_pos hbk]
          constructor
          · rintro (hx | ⟨s, hs⟩)
            · exact Or.inl hx
            · exact Or.inr ⟨s, List.mem_cons_of_mem _ hs⟩
          · rintro (hx | ⟨s, hs⟩)
            · exact Or.inl hx
            · rcases List.mem_cons.mp hs with heq | hs'
              · have : x = b := congrArg Prod.fst heq
                exact Or.inl (this ▸ hbk)
              · exact Or.inr ⟨s, hs'⟩
      | none =>
          dsimp only
          rcases buildSupportDict_ok pool hcons rest (AprioriCore.dictSet d b u)
            (fun r hr => hrec r (List.mem_cons_of_mem _ hr)) hstep hndstep
            with ⟨dict, hok, hdnd, hmem⟩
          refine ⟨dict, hok, hdnd, ?_⟩
          intro x
          rw [hmem x, keys_dictSet]
          by_cases hb : b ∈ d.map Prod.fst
          · rw [if_pos hb]
            constructor
            · rintro (hx | ⟨s, hs⟩)
              · exact Or.inl hx
              · exact Or.inr ⟨s, List.mem_cons_of_mem _ hs⟩
            · rintro (hx | ⟨s, hs⟩)
              · exact Or.inl hx
              · rcases List.mem_cons.mp hs with heq | hs'
                · have : x = b := congrArg Prod.fst heq
                  exact Or.inl (this ▸ hb)
                · exact Or.inr ⟨s, hs'⟩
          · rw [if_neg hb]
            constructor
            · rintro (hx | ⟨s, hs⟩)
              · rcases List.mem_append.mp hx with hx | hx
                · exact Or.inl hx
                · have : x = b := by simpa using hx
                  exact Or.inr ⟨u, this ▸ List.mem_cons_self _ _⟩
              · exact Or.inr ⟨s, List.mem_cons_of_mem _ hs⟩
            · rintro (hx | ⟨s, hs⟩)
              · exact Or.inl (List.mem_append.mpr (Or.inl hx))
              · rcases List.mem_cons.mp hs with heq | hs'
                · have : x = b := congrArg Prod.fst heq
                  exact Or.inl (List.mem_append.mpr (Or.inr (by simp [this])))
                · exact Or.inr ⟨s, hs'⟩

/-- Claim C6 counterexample: with frequent singletons `a`, `a\x01`
(`\x01` is a non-whitespace control character, a legal opaque item) and
`b`, the generator emits the pairs in lexicographic (first, second) pair
order, producing the lines `a a\x01`, `a b`, `a\x01 b` — but sorted by
the concatenated line string the order would be `a\x01 b`, `a a\x01`,
`a b`, since `\x01` sorts before the space.  The second line `a b` is
strictly greater than the third line `a\x01 b`, so the output is not
sorted lexicographically by the concatenated string as claimed (count
and pair set are as claimed). -/
theorem c6_output_not_sorted_by_concatenated_line :
    AprioriCore.generate_candidate_2_itemsets [["a\t1", "a\x01\t1", "b\t1"]]
      = .ok (["a a\x01", "a b", "a\x01 b"], 3)
    ∧ pyLe "a b" "a\x01 b" = false :=
  ⟨rfl, rfl⟩

/-- Claim C6 amended: given `F_1` files whose records are
support-consistent, the 2-candidate generator succeeds and emits, for the
`n` distinct frequent singletons, exactly the `n(n-1)/2` unordered pairs
`{a,b}`, `a < b`, each written once as `"<min> <max>"`, with the lines
ordered by the lexicographic order of the (first item, second item) PAIR
(which coincides with concatenated-string order except when one item
extends another with a character below `' '`); the returned count is the
number of pairs. -/
theorem c6_pair_generation_amended (files : List (List String))
    (hcons : ∀ a s t,
      (a, s) ∈ files.flatMap AprioriCore.extract_itemsets_and_supports →
      (a, t) ∈ files.flatMap AprioriCore.extract_itemsets_and_supports →
      s = t) :
    ∃ pairs : List (String × String),
      AprioriCore.generate_candidate_2_itemsets files
        = .ok (pairs.map (fun p => p.1 ++ " " ++ p.2), pairs.length)
      ∧ 2 * pairs.length
          = (((files.flatMap AprioriCore.extract_itemsets_and_supports).map
                Prod.fst).dedup).length
            * ((((files.flatMap AprioriCore.extract_itemsets_and_supports).map
                Prod.fst).dedup).length - 1)
      ∧ pairs.Nodup
      ∧ (∀ a b : String, (a, b) ∈ pairs ↔
          pyLt a b = true
          ∧ (∃ s, (a, s) ∈ files.flatMap AprioriCore.extract_itemsets_and_supports)
          ∧ (∃ s, (b, s) ∈ files.flatMap AprioriCore.extract_itemsets_and_supports))
      ∧ pairs.Pairwise (fun p q =>
          pyLt p.1 q.1 = true ∨ (p.1 = q.1 ∧ pyLt p.2 q.2 = true)) := by
  obtain ⟨dict, hok, hnd, hmem⟩ := buildSupportDict_ok
    (files.flatMap AprioriCore.extract_itemsets_and_supports) hcons
    (files.flatMap AprioriCore.extract_itemsets_and_supports) []
    (fun r hr => hr)
    (by intro k v h; simp [AprioriCore.dictGet] at h)
    (by simp)
  have hmem' : ∀ x, x ∈ dict.map Prod.fst ↔
      ∃ s, (x, s) ∈ files.flatMap AprioriCore.extract_itemsets_and_supports := by
    intro x
    rw [hmem x]
    simp
  have hsorted : List.Sorted (fun a b => pyLe a b = true)
      (pySorted (dict.map Prod.fst)) :=
    List.sorted_insertionSort _ (dict.map Prod.fst)
  have hperm : List.Perm (pySorted (dict.map Prod.fst)) (dict.map Prod.fst) :=
    List.perm_insertionSort _ (dict.map Prod.fst)
  have hndsorted : (pySorted (dict.map Prod.fst)).Nodup :=
    hperm.symm.nodup hnd
  have hlt : List.Pairwise (fun a b => pyLt a b = true)
      (pySorted (dict.map Prod.fst)) :=
    (hsorted.and hndsorted).imp (fun h => pyLt_iff.mpr h)
  have hmemsorted : ∀ x, x ∈ pySorted (dict.map Prod.fst) ↔
      ∃ s, (x, s) ∈ files.flatMap AprioriCore.extract_itemsets_and_supports := by
    intro x
    rw [hperm.mem_iff]
    exact hmem' x
  have hlen : (pySorted (dict.map Prod.fst)).length
      = (((files.flatMap AprioriCore.extract_itemsets_and_supports).map
          Prod.fst).dedup).length := by
    apply List.Perm.length_eq
    rw [List.perm_ext_iff_of_nodup hndsorted (List.nodup_dedup _)]
    intro x
    rw [hmemsorted x, List.mem_dedup, List.mem_map]
    constructor
    · rintro ⟨s, hs⟩
      exact ⟨(x, s), hs, rfl⟩
    · rintro ⟨⟨x', s⟩, hs, rfl⟩
      exact ⟨s, hs⟩
  refine ⟨pairsComb (pySorted (dict.map Prod.fst)), ?_, ?_, ?_, ?_, ?_⟩
  · unfold AprioriCore.generate_candidate_2_itemsets
    rw [hok]
    rfl
  · rw [← hlen]
    exact pairsComb_length _
  · exact pairsComb_nodup hlt
  · intro a b
    rw [pairsComb_mem_iff hlt a b, hmemsorted a, hmemsorted b]
    tauto
  · exact pairsComb_pairwise hlt

/-- Witness for `c6_pair_generation_amended`: `F_1` file with singletons
`c`, `a`, `b` (supports 2, 3, 2), the spec's own Scenario F. -/
theorem c6_pair_generation_amended_witness :
    ∃ pairs : List (String × String),
      AprioriCore.generate_candidate_2_itemsets [["c\t2", "a\t3", "b\t2"]]
        = .ok (pairs.map (fun p => p.1 ++ " " ++ p.2), pairs.length)
      ∧ 2 * pairs.length
          = ((([["c\t2", "a\t3", "b\t2"]].flatMap
                AprioriCore.extract_itemsets_and_supports).map
                Prod.fst).dedup).length
            * (((([["c\t2", "a\t3", "b\t2"]].flatMap
                AprioriCore.extract_itemsets_and_supports).map
                Prod.fst).dedup).length - 1)
      ∧ pairs.Nodup
      ∧ (∀ a b : String, (a, b) ∈ pairs ↔
          pyLt a b = true
          ∧ (∃ s, (a, s) ∈ [["c\t2", "a\t3", "b\t2"]].flatMap
              AprioriCore.extract_itemsets_and_supports)
          ∧ (∃ s, (b, s) ∈ [["c\t2", "a\t3", "b\t2"]].flatMap
              AprioriCore.extract_itemsets_and_supports))
      ∧ pairs.Pairwise (fun p q =>
          pyLt p.1 q.1 = true ∨ (p.1 = q.1 ∧ pyLt p.2 q.2 = true)) :=
  c6_pair_generation_amended [["c\t2", "a\t3", "b\t2"]] (by
    intro a s t hs ht
    have hrec : ([["c\t2", "a\t3", "b\t2"]].flatMap
        AprioriCore.extract_itemsets_and_supports)
        = [("c", 2), ("a", 3), ("b", 2)] := rfl
    rw [hrec] at hs ht
    simp only [List.mem_cons, List.not_mem_nil, or_false, Prod.mk.injEq] at hs ht
    rcases hs with ⟨rfl, rfl⟩ | ⟨rfl, rfl⟩ | ⟨rfl, rfl⟩ <;>
      rcases ht with ⟨ha, rfl⟩ | ⟨ha, rfl⟩ | ⟨ha, rfl⟩ <;> simp_all)

theorem fiFileName_head (n : ℕ) :
    (AprioriCore.fiFileName n).data.head? = some 'f' := by
  unfold AprioriCore.fiFileName
  rw [String.data_append, String.data_append, List.head?_append,
    List.head?_append]
  rfl

/-- Claim C5 counterexample: ten per-level files `frequent_itemsets_1.txt`
… `frequent_itemsets_10.txt`.  `combine_parts` processes part files in
sorted-by-filename order (apriori_core.py:375), and
`"frequent_itemsets_10.txt"` sorts lexicographically before
`"frequent_itemsets_2.txt"`, so the final file interleaves level 10
between levels 1 and 2 instead of the claimed level order. -/
theorem c5_ten_levels_not_level_order :
    (AprioriCore.combine_parts ((List.range 10).map
        (fun i => (AprioriCore.fiFileName (i + 1), ["f" ++ toString (i + 1)])))).1
      = ["f1", "f10", "f2", "f3", "f4", "f5", "f6", "f7", "f8", "f9"]
    ∧ (["f1", "f10", "f2", "f3", "f4", "f5", "f6", "f7", "f8", "f9"] : List String)
      ≠ (List.range 10).flatMap (fun i => ["f" ++ toString (i + 1)]) := by
  constructor
  · rfl
  · decide

/-- Claim C5 amended: as long as at most 9 levels exist (level numbers of
one digit), the lexicographic filename order used by `combine_parts`
coincides with level order, and the final consolidation is exactly the
per-level files' stripped non-empty lines concatenated in level order,
with the returned count the number of emitted lines.  With 10 or more
levels the order is lexicographic by filename, not level order. -/
theorem c5_combine_levels_amended (k : ℕ) (hk : k ≤ 9) (L : ℕ → List String) :
    AprioriCore.combine_parts ((List.range k).map
        (fun i => (AprioriCore.fiFileName (i + 1), L (i + 1))))
      = ((List.range k).flatMap
          (fun i => ((L (i + 1)).map pyStrip).filter (fun l => l ≠ "")),
        ((List.range k).flatMap
          (fun i => ((L (i + 1)).map pyStrip).filter (fun l => l ≠ ""))).length) := by
  have h10 : ∀ i, i < 10 → ∀ j, j < 10 → i < j →
      pyLe (AprioriCore.fiFileName i) (AprioriCore.fiFileName j) = true := by
    decide
  have hfilter : ((List.range k).map
      (fun i => (AprioriCore.fiFileName (i + 1), L (i + 1)))).filter
      (fun f => !(AprioriCore.startsWithChar f.1 '.')
        && !(AprioriCore.startsWithChar f.1 '_'))
      = (List.range k).map
          (fun i => (AprioriCore.fiFileName (i + 1), L (i + 1))) := by
    apply List.filter_eq_self.mpr
    intro f hf
    rcases List.mem_map.mp hf with ⟨i, _, rfl⟩
    simp [AprioriCore.startsWithChar, fiFileName_head]
  have hpairwise : List.Pairwise
      (fun (a b : String × List String) => pyLe a.1 b.1 = true)
      ((List.range k).map
        (fun i => (AprioriCore.fiFileName (i + 1), L (i + 1)))) := by
    rw [List.pairwise_map]
    have hbase : List.Pairwise (· < ·) (List.range k) := List.pairwise_lt_range k
    refine hbase.imp_of_mem ?_
    intro i j hi hj hij
    have hik : i < k := List.mem_range.mp hi
    have hjk : j < k := List.mem_range.mp hj
    exact h10 (i + 1) (by omega) (j + 1) (by omega) (by omega)
  unfold AprioriCore.combine_parts
  dsimp only
  rw [hfilter, List.Sorted.insertionSort_eq hpairwise]
  have hflat : ∀ (l : List ℕ),
      (l.map (fun i => (AprioriCore.fiFileName (i + 1), L (i + 1)))).flatMap
        (fun f => (f.2.map pyStrip).filter (fun l => l ≠ ""))
      = l.flatMap (fun i => ((L (i + 1)).map pyStrip).filter (fun l => l ≠ "")) := by
    intro l
    induction l with
    | nil => rfl
    | cons x xs ih => simp only [List.map_cons, List.flatMap_cons, ih]
  rw [hflat]

/-- Witness for `c5_combine_levels_amended`: three levels with one line
each plus an empty line. -/
theorem c5_combine_levels_amended_witness :
    AprioriCore.combine_parts ((List.range 3).map
        (fun i => (AprioriCore.fiFileName (i + 1), ["x" ++ toString (i + 1), ""])))
      = ((List.range 3).flatMap
          (fun i => ((["x" ++ toString (i + 1), ""]).map pyStrip).filter
            (fun l => l ≠ "")),
        ((List.range 3).flatMap
          (fun i => ((["x" ++ toString (i + 1), ""]).map pyStrip).filter
            (fun l => l ≠ ""))).length) :=
  c5_combine_levels_amended 3 (by decide) (fun i => ["x" ++ toString i, ""])

theorem groupVals_append {κ υ : Type} [DecidableEq κ]
    (xs ys : List (κ × υ)) (k : κ) :
    groupVals (xs ++ ys) k = groupVals xs k ++ groupVals ys k := by
  unfold groupVals
  rw [List.filter_append, List.map_append]

theorem sum_ite_eq_countP {α : Type} (p : α → Bool) :
    ∀ l : List α, (l.map (fun x => if p x then (1 : ℕ) else 0)).sum = l.countP p
  | [] => rfl
  | x :: l => by
      rw [List.map_cons, List.sum_cons, sum_ite_eq_countP p l,
        List.countP_cons]
      by_cases h : p x <;> simp [h, Nat.add_comm]

/-- Joining with a separator that occurs in no part is injective on
non-empty part lists. -/
theorem pyJoin_injective (sep : Char) (p1 p2 : List String)
    (h1 : p1 ≠ []) (h2 : p2 ≠ [])
    (hf1 : ∀ p ∈ p1, sep ∉ p.data) (hf2 : ∀ p ∈ p2, sep ∉ p.data)
    (heq : pyJoin sep p1 = pyJoin sep p2) : p1 = p2 := by
  have hsp := congrArg (fun s => pySplit s sep) heq
  simp only at hsp
  rwa [pySplit_pyJoin sep p1 h1 hf1, pySplit_pyJoin sep p2 h2 hf2] at hsp

/-- For a canonical candidate (strictly sorted tokens),
`itemset_to_string` is plain joining. -/
theorem itemset_to_string_canonical (S : List String) (sep : Char)
    (hS : List.Chain' (fun a b => pyLt a b = true) S) :
    ItemsetSupportCounter.itemset_to_string S sep = pyJoin sep S := by
  unfold ItemsetSupportCounter.itemset_to_string
  rw [pySorted_eq_self (chain'_pyLt_sorted hS)]

/-- Converting a canonical candidate's comma key back to the space form
yields its canonical space-separated string. -/
theorem change_separator_key (S : List String) (hne : S ≠ [])
    (hitems : ∀ x ∈ S, x ≠ "" ∧ ',' ∉ x.data ∧ ∀ c ∈ x.data, isWs c = false) :
    ItemsetSupportCounter.change_itemset_separator (pyJoin ',' S) ',' ' '
      = pyJoin ' ' S := by
  unfold ItemsetSupportCounter.change_itemset_separator
  rw [pySplit_pyJoin ',' S hne (fun p hp => (hitems p hp).2.1)]
  have hmapstrip : S.map pyStrip = S := by
    rw [List.map_congr_left
      (fun t htl => pyStrip_eq_self_of_forall (hitems t htl).2.2)]
    simp only [List.map_id_fun', id]
  rw [hmapstrip]
  have hfilter : S.filter (fun x => x ≠ "") = S :=
    List.filter_eq_self.mpr (fun a ha => by
      simp only [ne_eq, decide_eq_true_eq]
      exact (hitems a ha).1)
  rw [hfilter]

theorem groupVals_cands_map (cands : List (List String)) (S items : List String)
    (hS : S ∈ cands) (hnd : cands.Pairwise (· ≠ ·))
    (hinj : ∀ S' ∈ cands,
      ItemsetSupportCounter.itemset_to_string S' ','
        = ItemsetSupportCounter.itemset_to_string S ',' → S' = S) :
    groupVals (cands.map (fun S' =>
        (ItemsetSupportCounter.itemset_to_string S' ',',
          if ItemsetSupportCounter.issuperset items S' then (1 : ℕ) else 0)))
      (ItemsetSupportCounter.itemset_to_string S ',')
      = [if ItemsetSupportCounter.issuperset items S then 1 else 0] := by
  induction cands with
  | nil => cases hS
  | cons C rest ih =>
      have hndr := (List.pairwise_cons.mp hnd).2
      have hCnot := (List.pairwise_cons.mp hnd).1
      unfold groupVals
      rw [List.map_cons, List.filter_cons]
      rcases List.mem_cons.mp hS with rfl | hSrest
      · rw [if_pos (by simp)]
        have hrest : (rest.map (fun S' =>
            (ItemsetSupportCounter.itemset_to_string S' ',',
              if ItemsetSupportCounter.issuperset items S' then (1 : ℕ) else 0))).filter
            (fun p => p.1 = ItemsetSupportCounter.itemset_to_string S ',') = [] := by
          apply List.filter_eq_nil_iff.mpr
          intro p hp
          rcases List.mem_map.mp hp with ⟨S', hS', rfl⟩
          simp only [decide_eq_true_eq]
          intro hkey
          exact hCnot S' hS' (hinj S' (List.mem_cons_of_mem _ hS') hkey).symm
        rw [hrest]
        rfl
      · have hCS : C ≠ S := by
          intro hcontra
          exact hCnot S hSrest hcontra
        rw [if_neg (by
          simp only [decide_eq_true_eq]
          intro hkey
          exact hCS (hinj C (List.mem_cons_self _ _) hkey))]
        exact ih hSrest hndr
          (fun S' hS' => hinj S' (List.mem_cons_of_mem _ hS'))

theorem groupVals_mapper_db (db : List String) (cands : List (List String))
    (S : List String)
    (hS : S ∈ cands) (hnd : cands.Pairwise (· ≠ ·))
    (hinj : ∀ S' ∈ cands,
      ItemsetSupportCounter.itemset_to_string S' ','
        = ItemsetSupportCounter.itemset_to_string S ',' → S' = S) :
    groupVals (db.flatMap (ItemsetSupportCounter.mapper cands true))
      (ItemsetSupportCounter.itemset_to_string S ',')
      = (db.filterMap ItemsetSupportCounter.parsedItems).map
          (fun items =>
            if ItemsetSupportCounter.issuperset items S then (1 : ℕ) else 0) := by
  induction db with
  | nil => rfl
  | cons line rest ih =>
      rw [List.flatMap_cons, groupVals_append, ih]
      cases hp : ItemsetSupportCounter.parsedItems line with
      | none =>
          rw [List.filterMap_cons_none hp]
          have hmline : ItemsetSupportCounter.mapper cands true line = [] := by
            unfold ItemsetSupportCounter.mapper
            rw [hp]
          rw [hmline]
          rfl
      | some items =>
          rw [List.filterMap_cons_some hp]
          have hmline : ItemsetSupportCounter.mapper cands true line
              = cands.map (fun S' =>
                  (ItemsetSupportCounter.itemset_to_string S' ',',
                    if ItemsetSupportCounter.issuperset items S' then (1 : ℕ)
                    else 0)) := by
            unfold ItemsetSupportCounter.mapper
            rw [hp]
            rfl
          rw [hmline, groupVals_cands_map cands S items hS hnd hinj,
            List.map_cons]
          rfl

theorem mapper_keys_shape (cands : List (List String)) (line : String)
    (k : String) (v : ℕ)
    (h : (k, v) ∈ ItemsetSupportCounter.mapper cands true line) :
    ∃ S' ∈ cands, k = ItemsetSupportCounter.itemset_to_string S' ',' := by
  unfold ItemsetSupportCounter.mapper at h
  cases hp : ItemsetSupportCounter.parsedItems line with
  | none => rw [hp] at h; cases h
  | some items =>
      rw [hp] at h
      simp only [if_true] at h
      rcases List.mem_map.mp h with ⟨S', hS', heq⟩
      exact ⟨S', hS', (congrArg Prod.fst heq).symm⟩

/-- Claim C2 counterexample: items may legally contain commas (items are
opaque whitespace-free strings), and the internal comma-joined key
(itemset_support_counter.py:147,23) is then ambiguous.  The distinct
2-itemsets `{a, b,c}` and `{a,b, c}` both get the internal key `a,b,c`:
their counts merge, the job outputs the unrelated record `("a b c", 1)`,
and the record for the candidate `{a, b,c}` — whose support is 1 ≥
min_support — is absent, refuting the claimed iff. -/
theorem c2_comma_items_collide :
    ItemsetSupportCounter.job ["t1\ta b,c"] [.ok ["a b,c", "a,b c"]] 1
      = [("a b c", 1)]
    ∧ ItemsetSupportCounter.sigma ["a", "b,c"] ["t1\ta b,c"] = 1
    ∧ ("a b,c", 1) ∉ ItemsetSupportCounter.job ["t1\ta b,c"]
        [.ok ["a b,c", "a,b c"]] 1 := by
  refine ⟨by rfl, by rfl, by decide⟩


theorem reducer_true_eval (m : ℤ) (key : String) (values : List ℕ) :
    ItemsetSupportCounter.reducer true m key values
      = if ((values.sum : ℤ) ≥ m) then
          [(ItemsetSupportCounter.change_itemset_separator key ',' ' ',
            values.sum)]
        else [] := rfl

/-- Claim C2 amended: for any transaction database and any list of
distinct canonical candidate itemsets none of whose items contains a
comma (the internal key separator) or whitespace, supplied to the
Support Counter in candidate mode with min-support at least 1, the job
output contains the record `(S, c)` — `S` written space-separated —
iff `c = sigma(S) >= min_support`; in particular a candidate with
`sigma(S) < min_support` is absent. -/
theorem c2_support_counter_candidate_mode (db : List String)
    (cands : List (List String)) (files : List (Except String (List String)))
    (m : ℤ) (hm : 1 ≤ m)
    (hinit : ItemsetSupportCounter.taskInit files = (true, cands))
    (hcands : ∀ S ∈ cands, S ≠ []
      ∧ List.Chain' (fun a b => pyLt a b = true) S
      ∧ ∀ x ∈ S, x ≠ "" ∧ ',' ∉ x.data ∧ ∀ c ∈ x.data, isWs c = false)
    (hnd : cands.Pairwise (· ≠ ·)) :
    ∀ S ∈ cands, ∀ c : ℕ,
      (pyJoin ' ' S, c) ∈ ItemsetSupportCounter.job db files m
        ↔ (c = ItemsetSupportCounter.sigma S db
            ∧ (ItemsetSupportCounter.sigma S db : ℤ) ≥ m) := by
  intro S hS c
  have hspacefree : ∀ S' ∈ cands, ∀ x ∈ S', ' ' ∉ x.data := by
    intro S' hS' x hx hsp
    exact absurd (((hcands S' hS').2.2 x hx).2.2 ' ' hsp) (by decide)
  have hkeyinj : ∀ S1 ∈ cands, ∀ S2 ∈ cands,
      ItemsetSupportCounter.itemset_to_string S1 ','
        = ItemsetSupportCounter.itemset_to_string S2 ',' → S1 = S2 := by
    intro S1 h1 S2 h2 heq
    rw [itemset_to_string_canonical S1 ',' (hcands S1 h1).2.1,
      itemset_to_string_canonical S2 ',' (hcands S2 h2).2.1] at heq
    exact pyJoin_injective ',' S1 S2 (hcands S1 h1).1 (hcands S2 h2).1
      (fun p hp => ((hcands S1 h1).2.2 p hp).2.1)
      (fun p hp => ((hcands S2 h2).2.2 p hp).2.1) heq
  have hchange : ∀ S' ∈ cands,
      ItemsetSupportCounter.change_itemset_separator
        (ItemsetSupportCounter.itemset_to_string S' ',') ',' ' '
      = pyJoin ' ' S' := by
    intro S' hS'
    rw [itemset_to_string_canonical S' ',' (hcands S' hS').2.1]
    exact change_separator_key S' (hcands S' hS').1
      (fun x hx => ((hcands S' hS').2.2 x hx))
  have hgroupS : ∀ S' ∈ cands,
      (groupVals (db.flatMap (ItemsetSupportCounter.mapper cands true))
        (ItemsetSupportCounter.itemset_to_string S' ',')).sum
      = ItemsetSupportCounter.sigma S' db := by
    intro S' hS'
    rw [groupVals_mapper_db db cands S' hS' hnd
      (fun S2 hS2 => hkeyinj S2 hS2 S' hS')]
    exact sum_ite_eq_countP _ _
  have hjob : ItemsetSupportCounter.job db files m
      = runReduce (db.flatMap (ItemsetSupportCounter.mapper cands true))
          (fun k vs => ItemsetSupportCounter.reducer true m k vs) := by
    unfold ItemsetSupportCounter.job
    rw [hinit]
    have hms : (if m = 0 then 1 else m) = m := if_neg (by omega)
    rw [hms]
  rw [hjob]
  constructor
  · intro hmem
    rcases List.mem_flatMap.mp hmem with ⟨k, hk, hin⟩
    have hk' : k ∈ (db.flatMap (ItemsetSupportCounter.mapper cands true)).map
        Prod.fst := List.mem_dedup.mp hk
    rcases List.mem_map.mp hk' with ⟨⟨k0, v0⟩, hkv, hk0⟩
    rcases List.mem_flatMap.mp hkv with ⟨line, _, hkvline⟩
    rcases mapper_keys_shape cands line k0 v0 hkvline with ⟨S', hS', hkS'⟩
    dsimp only at hk0
    subst hk0
    subst hkS'
    dsimp only at hin
    rw [reducer_true_eval] at hin
    by_cases hge : ((groupVals
        (db.flatMap (ItemsetSupportCounter.mapper cands true))
        (ItemsetSupportCounter.itemset_to_string S' ',')).sum : ℤ) ≥ m
    · rw [if_pos hge] at hin
      rcases List.mem_singleton.mp hin with heq
      have hfst : pyJoin ' ' S
          = ItemsetSupportCounter.change_itemset_separator
              (ItemsetSupportCounter.itemset_to_string S' ',') ',' ' ' :=
        congrArg Prod.fst heq
      rw [hchange S' hS'] at hfst
      have hSS' : S = S' := pyJoin_injective ' ' S S'
        (hcands S hS).1 (hcands S' hS').1 (hspacefree S hS)
        (hspacefree S' hS') hfst
      subst hSS'
      have hcval : c = (groupVals
          (db.flatMap (ItemsetSupportCounter.mapper cands true))
          (ItemsetSupportCounter.itemset_to_string S ',')).sum :=
        congrArg Prod.snd heq
      rw [hgroupS S hS] at hcval
      rw [hgroupS S hS] at hge
      exact ⟨hcval, hge⟩
    · rw [if_neg hge] at hin
      cases hin
  · rintro ⟨hc, hge⟩
    have hpos : 0 < ItemsetSupportCounter.sigma S db := by omega
    have hpos' : 0 < (db.filterMap ItemsetSupportCounter.parsedItems).countP
        (fun items => ItemsetSupportCounter.issuperset items S) := hpos
    rcases List.countP_pos_iff.mp hpos' with ⟨items, hitems, hsup⟩
    rcases List.mem_filterMap.mp hitems with ⟨line, hline, hparse⟩
    have hmline : ItemsetSupportCounter.mapper cands true line
        = cands.map (fun S' =>
            (ItemsetSupportCounter.itemset_to_string S' ',',
              if ItemsetSupportCounter.issuperset items S' then (1 : ℕ)
              else 0)) := by
      unfold ItemsetSupportCounter.mapper
      rw [hparse]
      rfl
    have hpair : (ItemsetSupportCounter.itemset_to_string S ',',
        if ItemsetSupportCounter.issuperset items S then (1 : ℕ) else 0)
        ∈ db.flatMap (ItemsetSupportCounter.mapper cands true) :=
      List.mem_flatMap.mpr ⟨line, hline,
        by rw [hmline]; exact List.mem_map_of_mem _ hS⟩
    apply List.mem_flatMap.mpr
    refine ⟨ItemsetSupportCounter.itemset_to_string S ',',
      List.mem_dedup.mpr (List.mem_map.mpr ⟨_, hpair, rfl⟩), ?_⟩
    dsimp only
    rw [reducer_true_eval, hgroupS S hS, if_pos hge, hchange S hS, hc]
    exact List.mem_singleton.mpr rfl

/-- Witness for `c2_support_counter_candidate_mode`: database
`{t1: a b c, t2: a b}`, candidates `{a,b}` and `{b,c}`, min-support 2:
`sigma({a,b}) = 2` is reported, `sigma({b,c}) = 1` is absent. -/
theorem c2_support_counter_candidate_mode_witness :
    ((pyJoin ' ' ["a", "b"], 2) ∈ ItemsetSupportCounter.job
        ["t1\ta b c", "t2\ta b"] [.ok ["a b", "b c"]] 2
      ↔ (2 = ItemsetSupportCounter.sigma ["a", "b"] ["t1\ta b c", "t2\ta b"]
          ∧ (ItemsetSupportCounter.sigma ["a", "b"]
              ["t1\ta b c", "t2\ta b"] : ℤ) ≥ 2)) :=
  c2_support_counter_candidate_mode ["t1\ta b c", "t2\ta b"]
    [["a", "b"], ["b", "c"]] [.ok ["a b", "b c"]] 2 (by norm_num) (by rfl)
    (by
      intro S hS
      rcases List.mem_cons.mp hS with rfl | hS
      · exact ⟨by decide,
          List.chain'_cons.mpr ⟨by decide, List.chain'_singleton _⟩, by decide⟩
      · rcases List.mem_cons.mp hS with rfl | hS
        · exact ⟨by decide,
            List.chain'_cons.mpr ⟨by decide, List.chain'_singleton _⟩, by decide⟩
        · cases hS)
    (by decide) ["a", "b"] (by decide) 2

/-!
Claim C3: downward-closure soundness of the three-stage candidate
generator.  The lemmas below characterise membership in the MapReduce
primitive, in the mapper output, and in each reducer's output, and
culminate in the soundness theorem: every emitted candidate has each of
its drop-one subsets among the input records.
-/

/-- A value is delivered to the reducer of key `k` iff the pair was
emitted. -/
theorem mem_groupVals {κ υ : Type} [DecidableEq κ]
    {pairs : List (κ × υ)} {k : κ} {v : υ} :
    v ∈ groupVals pairs k ↔ (k, v) ∈ pairs := by
  constructor
  · intro h
    rcases List.mem_map.mp h with ⟨p, hp, hv⟩
    rcases List.mem_filter.mp hp with ⟨hpm, hpk⟩
    have hk1 : p.1 = k := of_decide_eq_true hpk
    obtain ⟨p1, p2⟩ := p
    subst hv
    subst hk1
    exact hpm
  · intro h
    refine List.mem_map.mpr ⟨(k, v), List.mem_filter.mpr ⟨h, ?_⟩, rfl⟩
    exact decide_eq_true rfl

/-- Membership in a reduce round: the element is produced by the reducer
call of some key present in the shuffled input. -/
theorem mem_runReduce {κ υ κ' υ' : Type} [DecidableEq κ]
    {pairs : List (κ × υ)} {red : κ → List υ → List (κ' × υ')}
    {p : κ' × υ'} :
    p ∈ runReduce pairs red ↔
      ∃ k, k ∈ (pairs.map Prod.fst).dedup ∧ p ∈ red k (groupVals pairs k) := by
  unfold runReduce
  exact List.mem_flatMap

/-- The key of any emitted pair appears in the deduplicated key list of
the shuffle. -/
theorem key_mem_dedup_of_mem {κ υ : Type} [DecidableEq κ]
    {pairs : List (κ × υ)} {k : κ} {v : υ} (h : (k, v) ∈ pairs) :
    k ∈ (pairs.map Prod.fst).dedup :=
  List.mem_dedup.mpr (List.mem_map.mpr ⟨(k, v), h, rfl⟩)

/-- An exhausted generator yields no probes, whatever pairs remain. -/
theorem consumeProbes_nil_iter (pfx : List String) :
    ∀ l, CandidateGenerator.consumeProbes pfx [] l = []
  | [] => rfl
  | (q1, q2) :: rest => by
      have ih := consumeProbes_nil_iter pfx rest
      simp [CandidateGenerator.consumeProbes, ih]

/-- Every probe produced by the generator loop carries the sentinel
support `-1`. -/
theorem consumeProbes_val :
    ∀ (pfx : List String) (iter : List (List String))
      (l : List (String × String)) (p : List String × (List String × ℤ)),
      p ∈ CandidateGenerator.consumeProbes pfx iter l →
      p.2.2 = CandidateGenerator.UNEXISTED_SUPPORT
  | pfx, iter, [], p, h => by
      simp [CandidateGenerator.consumeProbes] at h
  | pfx, iter, (q1, q2) :: rest, p, h => by
      simp only [CandidateGenerator.consumeProbes] at h
      rcases List.mem_append.mp h with h | h
      · rcases List.mem_map.mp h with ⟨sp, _, rfl⟩
        rfl
      · exact consumeProbes_val pfx [] rest p h

/-- Sorting a canonical token list's erasure is the identity. -/
theorem pySorted_eraseIdx_eq {pfx : List String} (j : ℕ)
    (hpfx : List.Pairwise (fun a b => pyLt a b = true) pfx) :
    pySorted (pfx.eraseIdx j) = pfx.eraseIdx j :=
  pySorted_eq_self
    ((List.Pairwise.sublist (List.eraseIdx_sublist pfx j) hpfx).imp
      (fun hab => (pyLt_iff.mp hab).1))

/-- Sorting preserves membership. -/
theorem mem_pySorted {a : String} {l : List String} :
    a ∈ pySorted l ↔ a ∈ l := by
  unfold pySorted
  exact (List.perm_insertionSort _ l).mem_iff

/-- Both components of an emitted unordered pair come from the pool. -/
theorem mem_of_mem_pairsComb {α : Type} {a b : α} {l : List α}
    (h : (a, b) ∈ pairsComb l) : a ∈ l ∧ b ∈ l := by
  rcases mem_pairsComb h with ⟨l1, l2, l3, rfl⟩
  constructor
  · simp
  · simp

/-- Any member of the reducer group's sorted distinct postfix pool is the
postfix of some delivered pair. -/
theorem exists_pair_of_mem_postItems {pairs : List (String × ℕ)}
    {q : String} (h : q ∈ pySorted (pairs.map Prod.fst).dedup) :
    ∃ σ, (q, σ) ∈ pairs := by
  have h1 : q ∈ pairs.map Prod.fst := List.mem_dedup.mp (mem_pySorted.mp h)
  rcases List.mem_map.mp h1 with ⟨p, hp, hq⟩
  refine ⟨p.2, ?_⟩
  rw [← hq]
  exact hp

/-- Shape of the prefix mapper's output on a canonical record: the key is
the itemset minus its last token and the value is that token with the
record's support. -/
theorem prefix_mapper_shape {tokens : List String} {support : ℕ}
    {pair : List String × (String × ℕ)}
    (hc : List.Pairwise (fun a b => pyLt a b = true) tokens)
    (h : pair ∈ CandidateGenerator.prefix_mapper tokens support) :
    ∃ q, tokens = pair.1 ++ [q] ∧ pair.2 = (q, support) := by
  unfold CandidateGenerator.prefix_mapper at h
  have hsort : pySorted tokens = tokens :=
    pySorted_eq_self (hc.imp (fun hab => (pyLt_iff.mp hab).1))
  dsimp only at h
  rw [hsort] at h
  split at h
  · exact absurd h (List.not_mem_nil _)
  · rename_i q hL
    rcases List.mem_singleton.mp h with rfl
    refine ⟨q, ?_, rfl⟩
    exact (List.dropLast_append_getLast? q (Option.mem_def.mpr hL)).symm

/-- A postfix/support value delivered under prefix key `pfx` identifies an
input record with itemset `pfx ++ [q]`. -/
theorem mapper_group_mem {records : List (List String × ℕ)}
    (hcanon : ∀ r ∈ records,
      List.Pairwise (fun a b => pyLt a b = true) r.1)
    {pfx : List String} {q : String} {σ : ℕ}
    (h : (q, σ) ∈ groupVals
      (records.flatMap (fun r => CandidateGenerator.prefix_mapper r.1 r.2))
      pfx) :
    ∃ r ∈ records, r.1 = pfx ++ [q] := by
  rcases List.mem_flatMap.mp (mem_groupVals.mp h) with ⟨r, hr, hmem⟩
  rcases prefix_mapper_shape (hcanon r hr) hmem with ⟨q', heq, hval⟩
  have hq : q = q' := congrArg Prod.fst hval
  refine ⟨r, hr, ?_⟩
  rw [heq, ← hq]

/-- Every shuffle key of stage 1 is canonical: it is an input itemset
minus its last token. -/
theorem mapper_key_pairwise {records : List (List String × ℕ)}
    (hcanon : ∀ r ∈ records,
      List.Pairwise (fun a b => pyLt a b = true) r.1)
    {pfx : List String}
    (h : pfx ∈ ((records.flatMap
      (fun r => CandidateGenerator.prefix_mapper r.1 r.2)).map
        Prod.fst).dedup) :
    List.Pairwise (fun a b => pyLt a b = true) pfx := by
  rcases List.mem_map.mp (List.mem_dedup.mp h) with ⟨pair, hpm, hfst⟩
  rcases List.mem_flatMap.mp hpm with ⟨r, hr, hmem⟩
  rcases prefix_mapper_shape (hcanon r hr) hmem with ⟨q, heq, _⟩
  have hsub : List.Sublist pair.1 r.1 := by
    rw [heq]
    exact List.sublist_append_left _ _
  have hpw := List.Pairwise.sublist hsub (hcanon r hr)
  rwa [hfst] at hpw

/-- A stage-1 emission carrying a support other than the sentinel is a
self-probe: its key is the group prefix extended by a delivered postfix. -/
theorem stage1_value_shape {pfx S cand : List String}
    {pairs : List (String × ℕ)} {s : ℤ}
    (hmem : (S, (cand, s))
      ∈ CandidateGenerator.checking_subsets_generating_reducer pfx pairs)
    (hs : s ≠ CandidateGenerator.UNEXISTED_SUPPORT) :
    ∃ q σ, (q, σ) ∈ pairs ∧ S = pfx ++ [q] := by
  unfold CandidateGenerator.checking_subsets_generating_reducer at hmem
  dsimp only at hmem
  split_ifs at hmem
  · rcases List.mem_map.mp hmem with ⟨pq, hpq, heq⟩
    injection heq with hk hv
    exact ⟨pq.1, pq.2, hpq, hk.symm⟩
  · rcases List.mem_append.mp hmem with hm | hm
    · rcases List.mem_map.mp hm with ⟨pq, hpq, heq⟩
      injection heq with hk hv
      exact ⟨pq.1, pq.2, hpq, hk.symm⟩
    · rcases List.mem_map.mp hm with ⟨pq, _, heq⟩
      injection heq with hk hv
      injection hv with hcand hsup
      exact absurd hsup.symm hs
  · rcases List.mem_append.mp hmem with hm | hm
    · rcases List.mem_map.mp hm with ⟨pq, hpq, heq⟩
      injection heq with hk hv
      exact ⟨pq.1, pq.2, hpq, hk.symm⟩
    · exact absurd (consumeProbes_val _ _ _ _ hm) hs

/-- Completeness of the probe set of stage 1 for an emitted candidate: an
emission whose candidate field is non-empty pins the candidate to
`prefix ++ [q1, q2]`, and every drop-one subset of that candidate is
either an itemset delivered to this group (the two postfix-drop subsets)
or the key of a probe emitted by this very reducer call (the prefix-drop
subsets, all generated for the pair that consumed the generator). -/
theorem stage1_probe_complete {pfx : List String}
    (hpfx : List.Pairwise (fun a b => pyLt a b = true) pfx)
    {pairs : List (String × ℕ)} {S₀ C : List String} {s₀ : ℤ}
    (hC : C ≠ [])
    (hmem : (S₀, (C, s₀))
      ∈ CandidateGenerator.checking_subsets_generating_reducer pfx pairs) :
    ∃ q1 q2, C = pfx ++ [q1, q2] ∧
      ∀ i, i < C.length →
        (∃ q σ, (q, σ) ∈ pairs ∧ C.eraseIdx i = pfx ++ [q])
        ∨ (C.eraseIdx i, (C, CandidateGenerator.UNEXISTED_SUPPORT))
            ∈ CandidateGenerator.checking_subsets_generating_reducer
              pfx pairs := by
  have hded : pfx.dedup = pfx :=
    List.dedup_eq_self.mpr (nodup_of_pairwise_pyLt hpfx)
  by_cases h1 : pfx.length = 0
      ∨ (pySorted (pairs.map Prod.fst).dedup).length < 2
  · have hR : CandidateGenerator.checking_subsets_generating_reducer pfx pairs
        = pairs.map (fun pq =>
            (pfx ++ [pq.1], (([] : List String), (pq.2 : ℤ)))) := by
      unfold CandidateGenerator.checking_subsets_generating_reducer
      dsimp only
      rw [hded, if_pos h1]
    rw [hR] at hmem
    rcases List.mem_map.mp hmem with ⟨pq, _, heq⟩
    injection heq with hk hv
    injection hv with hcand hsup
    exact absurd hcand.symm hC
  · by_cases h2 : pfx.length = 1
    · have hR : CandidateGenerator.checking_subsets_generating_reducer pfx pairs
          = pairs.map (fun pq =>
              (pfx ++ [pq.1], (([] : List String), (pq.2 : ℤ))))
            ++ (pairsComb (pySorted (pairs.map Prod.fst).dedup)).map (fun pq =>
              ([pq.1, pq.2],
                (pfx ++ [pq.1, pq.2],
                  CandidateGenerator.UNEXISTED_SUPPORT))) := by
        unfold CandidateGenerator.checking_subsets_generating_reducer
        dsimp only
        rw [hded, if_neg h1, if_pos h2]
      rw [hR] at hmem
      rcases List.mem_append.mp hmem with hm | hm
      · rcases List.mem_map.mp hm with ⟨pq, _, heq⟩
        injection heq with hk hv
        injection hv with hcand hsup
        exact absurd hcand.symm hC
      · rcases List.mem_map.mp hm with ⟨pr, hpr, heq⟩
        obtain ⟨q1, q2⟩ := pr
        injection heq with hk hv
        injection hv with hcand hsup
        subst hcand
        obtain ⟨x, rfl⟩ := List.length_eq_one.mp h2
        refine ⟨q1, q2, rfl, ?_⟩
        intro i hi
        have hq12 := mem_of_mem_pairsComb hpr
        have hi3 : i < 3 := by simpa using hi
        interval_cases i
        · right
          rw [hR]
          exact List.mem_append_right _ (List.mem_map.mpr ⟨(q1, q2), hpr, rfl⟩)
        · left
          rcases exists_pair_of_mem_postItems hq12.2 with ⟨σ, hσ⟩
          exact ⟨q2, σ, hσ, rfl⟩
        · left
          rcases exists_pair_of_mem_postItems hq12.1 with ⟨σ, hσ⟩
          exact ⟨q1, σ, hσ, rfl⟩
    · have hR : CandidateGenerator.checking_subsets_generating_reducer pfx pairs
          = pairs.map (fun pq =>
              (pfx ++ [pq.1], (([] : List String), (pq.2 : ℤ))))
            ++ CandidateGenerator.consumeProbes pfx
              ((List.range pfx.length).map
                (fun j => pySorted (pfx.eraseIdx j)))
              (pairsComb (pySorted (pairs.map Prod.fst).dedup)) := by
        unfold CandidateGenerator.checking_subsets_generating_reducer
        dsimp only
        rw [hded, if_neg h1, if_neg h2]
      rw [hR] at hmem
      rcases List.mem_append.mp hmem with hm | hm
      · rcases List.mem_map.mp hm with ⟨pq, _, heq⟩
        injection heq with hk hv
        injection hv with hcand hsup
        exact absurd hcand.symm hC
      · cases hcomb : pairsComb (pySorted (pairs.map Prod.fst).dedup) with
        | nil =>
            rw [hcomb] at hm
            simp [CandidateGenerator.consumeProbes] at hm
        | cons pr rest =>
            rw [hcomb] at hm
            obtain ⟨q1, q2⟩ := pr
            simp only [CandidateGenerator.consumeProbes,
              consumeProbes_nil_iter, List.append_nil] at hm
            rcases List.mem_map.mp hm with ⟨sp, hsp, heq⟩
            injection heq with hk hv
            injection hv with hcand hsup
            subst hcand
            refine ⟨q1, q2, rfl, ?_⟩
            intro i hi
            have hlen2 : (pfx ++ [q1, q2]).length = pfx.length + 2 := by
              simp
            rw [hlen2] at hi
            by_cases hilt : i < pfx.length
            · right
              rw [hR, hcomb]
              refine List.mem_append_right _ ?_
              simp only [CandidateGenerator.consumeProbes,
                consumeProbes_nil_iter, List.append_nil]
              refine List.mem_map.mpr ⟨pySorted (pfx.eraseIdx i), ?_, ?_⟩
              · exact List.mem_map.mpr ⟨i, List.mem_range.mpr hilt, rfl⟩
              · dsimp only
                rw [pySorted_eraseIdx_eq i hpfx,
                  List.eraseIdx_append_of_lt_length hilt]
            · have hpm : (q1, q2)
                  ∈ pairsComb (pySorted (pairs.map Prod.fst).dedup) := by
                rw [hcomb]
                exact List.mem_cons_self _ _
              have hq12 := mem_of_mem_pairsComb hpm
              left
              rcases (by omega : i = pfx.length ∨ i = pfx.length + 1)
                with rfl | rfl
              · rcases exists_pair_of_mem_postItems hq12.2 with ⟨σ, hσ⟩
                refine ⟨q2, σ, hσ, ?_⟩
                rw [List.eraseIdx_append_of_length_le (Nat.le_refl _),
                  Nat.sub_self]
                rfl
              · rcases exists_pair_of_mem_postItems hq12.1 with ⟨σ, hσ⟩
                refine ⟨q1, σ, hσ, ?_⟩
                rw [List.eraseIdx_append_of_length_le (Nat.le_succ _)]
                have hsub1 : pfx.length.succ - pfx.length = 1 := by omega
                rw [hsub1]
                rfl

/-- If every value of a group carries the sentinel, the remembered-support
fold returns its accumulator unchanged. -/
theorem fold_last_support_all_unknown :
    ∀ (values : List (List String × ℤ)) (acc : ℤ),
      (∀ v ∈ values, v.2 = CandidateGenerator.UNEXISTED_SUPPORT) →
      values.foldl
        (fun acc v =>
          if v.2 ≠ CandidateGenerator.UNEXISTED_SUPPORT then v.2 else acc)
        acc = acc
  | [], _, _ => rfl
  | v :: vs, acc, h => by
      have hv : v.2 = CandidateGenerator.UNEXISTED_SUPPORT :=
        h v (List.mem_cons_self _ _)
      rw [List.foldl_cons, if_neg (not_not_intro hv)]
      exact fold_last_support_all_unknown vs acc
        (fun u hu => h u (List.mem_cons_of_mem _ hu))

/-- If the remembered-support fold of a group does not return the
sentinel, some value of the group carries a real support. -/
theorem validating_fold_ne {values : List (List String × ℤ)}
    (h : values.foldl
      (fun acc v =>
        if v.2 ≠ CandidateGenerator.UNEXISTED_SUPPORT then v.2 else acc)
      CandidateGenerator.UNEXISTED_SUPPORT
      ≠ CandidateGenerator.UNEXISTED_SUPPORT) :
    ∃ v ∈ values, v.2 ≠ CandidateGenerator.UNEXISTED_SUPPORT := by
  by_contra hno
  push_neg at hno
  exact h (fold_last_support_all_unknown values _ hno)

/-- A stage-2 emission decomposed: its candidate arrived in the group as
the candidate field of some value, it is non-empty, and its support is the
group's remembered-support fold. -/
theorem mem_subset_validating {values : List (List String × ℤ)}
    {C : List String} {s : ℤ}
    (h : (C, s) ∈ CandidateGenerator.subset_validating_reducer values) :
    (∃ t, (C, t) ∈ values) ∧ C ≠ [] ∧
      s = values.foldl
        (fun acc v =>
          if v.2 ≠ CandidateGenerator.UNEXISTED_SUPPORT then v.2 else acc)
        CandidateGenerator.UNEXISTED_SUPPORT := by
  unfold CandidateGenerator.subset_validating_reducer at h
  dsimp only at h
  rcases List.mem_map.mp h with ⟨v, hv, heq⟩
  rcases List.mem_filter.mp hv with ⟨hvm, hvne⟩
  injection heq with h1 h2
  refine ⟨⟨v.2, ?_⟩, ?_, h2.symm⟩
  · rw [← h1]
    exact hvm
  · rw [← h1]
    exact of_decide_eq_true hvne

/-- Conversely, every non-empty candidate delivered to a stage-2 group is
re-emitted with the group's remembered-support fold. -/
theorem subset_validating_emits {values : List (List String × ℤ)}
    {C : List String} {t : ℤ} (hm : (C, t) ∈ values) (hC : C ≠ []) :
    (C, values.foldl
        (fun acc v =>
          if v.2 ≠ CandidateGenerator.UNEXISTED_SUPPORT then v.2 else acc)
        CandidateGenerator.UNEXISTED_SUPPORT)
      ∈ CandidateGenerator.subset_validating_reducer values := by
  unfold CandidateGenerator.subset_validating_reducer
  dsimp only
  exact List.mem_map.mpr ⟨(C, t),
    List.mem_filter.mpr ⟨hm, decide_eq_true hC⟩, rfl⟩

/-- Claim C3: downward-closure soundness of the candidate generator.  On
canonical input records (each itemset a strictly increasing token list,
the on-disk form of every `F_k` file), every candidate itemset emitted by
the three-stage pipeline has each of its drop-one subsets present among
the input records: Stage 3 keeps a candidate only if every probe group
was answered by the self-probe of an existing record, and the two
postfix-drop subsets come from the prefix-join structure itself. -/
theorem c3_downward_closure_soundness (records : List (List String × ℕ))
    (hcanon : ∀ r ∈ records, List.Chain' (fun a b => pyLt a b = true) r.1) :
    ∀ C ∈ CandidateGenerator.pipeline records, ∀ i, i < C.length →
      ∃ r ∈ records, r.1 = C.eraseIdx i := by
  have hcanon' : ∀ r ∈ records,
      List.Pairwise (fun a b => pyLt a b = true) r.1 := by
    have : IsTrans String (fun a b => pyLt a b = true) :=
      ⟨fun _ _ _ ha hb => pyLt_trans ha hb⟩
    exact fun r hr => List.chain'_iff_pairwise.mp (hcanon r hr)
  intro C hC i hi
  unfold CandidateGenerator.pipeline at hC
  rcases List.mem_map.mp hC with ⟨pc, hpc, hCeq⟩
  rcases mem_runReduce.mp hpc with ⟨k2, hk2, hred3⟩
  rcases List.mem_map.mp hred3 with ⟨cd, hcd, hpceq⟩
  have hCcd : C = cd := by rw [← hCeq, ← hpceq]
  subst hCcd
  unfold CandidateGenerator.candidate_pruning_reducer at hcd
  split_ifs at hcd with hcond
  · exact absurd hcd (List.not_mem_nil _)
  · have hCk2 : C = k2 := List.mem_singleton.mp hcd
    subst hCk2
    push_neg at hcond
    obtain ⟨hlen, hany⟩ := hcond
    have hall : ∀ s ∈ groupVals (CandidateGenerator.stage2 records) C,
        s ≠ CandidateGenerator.UNEXISTED_SUPPORT := by
      intro s hs hse
      refine hany (List.any_eq_true.mpr ⟨s, hs, ?_⟩)
      rw [hse]
      exact decide_eq_true rfl
    have hGne : groupVals (CandidateGenerator.stage2 records) C ≠ [] := by
      intro hnil
      refine hlen ?_
      rw [hnil]
      rfl
    obtain ⟨s0, hs0⟩ := List.exists_mem_of_ne_nil _ hGne
    have hstage2 : (C, s0) ∈ CandidateGenerator.stage2 records :=
      mem_groupVals.mp hs0
    unfold CandidateGenerator.stage2 at hstage2
    rcases mem_runReduce.mp hstage2 with ⟨S1key, hS1k, hval⟩
    obtain ⟨⟨t, ht⟩, hCne, -⟩ := mem_subset_validating hval
    have hst1 : (S1key, (C, t)) ∈ CandidateGenerator.stage1 records :=
      mem_groupVals.mp ht
    have hst1' := hst1
    unfold CandidateGenerator.stage1 at hst1'
    rcases mem_runReduce.mp hst1' with ⟨pfx, hpfxk, hred1⟩
    have hpfxP : List.Pairwise (fun a b => pyLt a b = true) pfx :=
      mapper_key_pairwise hcanon' hpfxk
    rcases stage1_probe_complete hpfxP hCne hred1 with ⟨q1, q2, -, hcomplete⟩
    rcases hcomplete i hi with hauto | hprobe
    · rcases hauto with ⟨q, σ, hqσ, herase⟩
      rcases mapper_group_mem hcanon' hqσ with ⟨r, hr, hreq⟩
      refine ⟨r, hr, ?_⟩
      rw [hreq, herase]
    · have hprobe1 : (C.eraseIdx i, (C, CandidateGenerator.UNEXISTED_SUPPORT))
          ∈ CandidateGenerator.stage1 records := by
        unfold CandidateGenerator.stage1
        exact mem_runReduce.mpr ⟨pfx, hpfxk, hprobe⟩
      have hgv : (C, CandidateGenerator.UNEXISTED_SUPPORT)
          ∈ groupVals (CandidateGenerator.stage1 records) (C.eraseIdx i) :=
        mem_groupVals.mpr hprobe1
      have hemit := subset_validating_emits hgv hCne
      have hst2C : (C, (groupVals (CandidateGenerator.stage1 records)
            (C.eraseIdx i)).foldl
          (fun acc v =>
            if v.2 ≠ CandidateGenerator.UNEXISTED_SUPPORT then v.2 else acc)
          CandidateGenerator.UNEXISTED_SUPPORT)
          ∈ CandidateGenerator.stage2 records := by
        unfold CandidateGenerator.stage2
        exact mem_runReduce.mpr
          ⟨C.eraseIdx i, key_mem_dedup_of_mem hprobe1, hemit⟩
      rcases validating_fold_ne (hall _ (mem_groupVals.mpr hst2C))
        with ⟨v, hv, hvne⟩
      obtain ⟨vc, vs⟩ := v
      have hst1v : (C.eraseIdx i, (vc, vs))
          ∈ CandidateGenerator.stage1 records := mem_groupVals.mp hv
      unfold CandidateGenerator.stage1 at hst1v
      rcases mem_runReduce.mp hst1v with ⟨pfx2, hpfx2k, hred2⟩
      rcases stage1_value_shape hred2 hvne with ⟨q, σ, hqσ, hSeq⟩
      rcases mapper_group_mem hcanon' hqσ with ⟨r, hr, hreq⟩
      refine ⟨r, hr, ?_⟩
      rw [hreq, ← hSeq]

/-- Witness for `c3_downward_closure_soundness`: on the canonical `F_2`
records `{a b: 3, a c: 2, b c: 2}` the pipeline emits the single
candidate `a b c`, and its drop-one subset at index 0, `b c`, is an input
record. -/
theorem c3_downward_closure_soundness_witness :
    ["a", "b", "c"] ∈ CandidateGenerator.pipeline
        [(["a", "b"], 3), (["a", "c"], 2), (["b", "c"], 2)]
    ∧ ∃ r ∈ ([(["a", "b"], 3), (["a", "c"], 2), (["b", "c"], 2)] :
        List (List String × ℕ)), r.1 = ["a", "b", "c"].eraseIdx 0 := by
  refine ⟨by decide, ?_⟩
  refine c3_downward_closure_soundness _ ?_ ["a", "b", "c"] (by decide) 0
    (by decide)
  intro r hr
  rcases List.mem_cons.mp hr with rfl | hr
  · exact List.chain'_cons.mpr ⟨by decide, List.chain'_singleton _⟩
  · rcases List.mem_cons.mp hr with rfl | hr
    · exact List.chain'_cons.mpr ⟨by decide, List.chain'_singleton _⟩
    · rcases List.mem_cons.mp hr with rfl | hr
      · exact List.chain'_cons.mpr ⟨by decide, List.chain'_singleton _⟩
      · cases hr
